import Mathlib

set_option maxRecDepth 100000

/-!
Verification of the type-normalization and route-tree extraction engine of
elysia-treaty-docs (src/index.ts) against its natural-language specification.

The TypeScript source is shallowly embedded: the opaque ts-morph `Type` handle
becomes the inductive `Ty` below, capturing exactly the queries the source
performs (isArray, getArrayElementType, isTuple, getTupleElements, isUnion,
getUnionTypes, isIntersection, getIntersectionTypes, getSymbol()?.getName(),
getAliasSymbol()?.getName(), getTypeArguments, getAliasTypeArguments, isObject,
getCallSignatures().length, getNumberIndexType, getProperties and getText with
the fixed flag set the source always passes).  JavaScript strings become Lean
strings, manipulated through List Char so that every operation reduces in the
kernel.  Functions that can raise in JavaScript (String.prototype.repeat with a
negative count, out-of-bounds indexing) return Option, with none exactly where
the JavaScript run would not produce a string.
-/

namespace TreatyDocs

/-! ## Character and string helpers (models of the JS primitives used) -/

/-- Model of the JS regex class \s for the characters this program handles. -/
def jsWhitespace (c : Char) : Bool :=
  c = ' ' || c = '\t' || c = '\n' || c = '\r'

/-- Model of the JS regex word-character class \w = [A-Za-z0-9_]. -/
def jsWordChar (c : Char) : Bool :=
  c.isAlphanum || c = '_'

/-- First character of VALID_IDENT = /^[a-zA-Z_$][a-zA-Z0-9_$]*$/. -/
def identStartChar (c : Char) : Bool :=
  c.isAlpha || c = '_' || c = '$'

/-- Continuation character of VALID_IDENT. -/
def identPartChar (c : Char) : Bool :=
  c.isAlphanum || c = '_' || c = '$'

/-- VALID_IDENT.test(s) for /^[a-zA-Z_$][a-zA-Z0-9_$]*$/. -/
def validIdent (s : String) : Bool :=
  match s.toList with
  | [] => false
  | c :: cs => identStartChar c && cs.all identPartChar

/-- Prefix test on character lists (model of String.prototype.startsWith). -/
def charsStartWith : List Char → List Char → Bool
  | _, [] => true
  | [], _ :: _ => false
  | c :: cs, p :: ps => c = p && charsStartWith cs ps

/-- Model of String.prototype.startsWith. -/
def strStartsWith (s p : String) : Bool :=
  charsStartWith s.toList p.toList

/-- ASCII upper-casing, the fragment of String.prototype.toUpperCase the
walker applies to the HTTP method names get/post/put/delete/patch. -/
def asciiUpperChar (c : Char) : Char :=
  if 'a' ≤ c && c ≤ 'z' then Char.ofNat (c.toNat - 32) else c

/-- Model of String.prototype.toUpperCase on the method names. -/
def strToUpper (s : String) : String :=
  (s.toList.map asciiUpperChar).asString

/-- Hexadecimal digit for JSON \u escapes. -/
def hexDigit (n : Nat) : Char :=
  if n < 10 then Char.ofNat (48 + n) else Char.ofNat (87 + n)

/-- Four-digit hexadecimal rendering for JSON \u escapes. -/
def hex4 (n : Nat) : List Char :=
  [hexDigit (n / 4096 % 16), hexDigit (n / 256 % 16), hexDigit (n / 16 % 16), hexDigit (n % 16)]

/-- Per-character escaping of JSON.stringify for string arguments. -/
def jsonEscapeChar (c : Char) : List Char :=
  if c = '"' then ['\\', '"']
  else if c = '\\' then ['\\', '\\']
  else if c = '\n' then ['\\', 'n']
  else if c = '\r' then ['\\', 'r']
  else if c = '\t' then ['\\', 't']
  else if c = '\x08' then ['\\', 'b']
  else if c = '\x0c' then ['\\', 'f']
  else if c.toNat < 32 then '\\' :: 'u' :: hex4 c.toNat
  else [c]

/-- Model of JSON.stringify applied to a property-name string. -/
def jsonStringify (s : String) : String :=
  ('"' :: (s.toList.flatMap jsonEscapeChar) ++ ['"']).asString

/-- Deduplication preserving first occurrences: [...new Set(parts)]. -/
def dedupKeepFirst (l : List String) : List String :=
  l.foldl (fun acc p => if acc.contains p then acc else acc ++ [p]) []

/-! ## Source constants (src/index.ts lines 46-121) -/

/-- Well-known generic type names preserved rather than expanded. -/
def KNOWN_GENERICS : List String :=
  ["Array", "ReadonlyArray", "Promise", "Map", "Set", "WeakMap", "WeakSet",
   "Readonly", "Partial", "Required", "Pick", "Omit", "Record", "Exclude",
   "Extract", "NonNullable", "ReturnType", "Iterable", "Iterator",
   "AsyncIterable", "AsyncIterator", "Generator", "AsyncGenerator",
   "IterableIterator"]

/-- HTTP method property names recognized by the walker. -/
def HTTP_METHODS : List String :=
  ["get", "post", "put", "delete", "patch"]

/-- Framework-internal property names skipped by the walker. -/
def INTERNAL_PROPS : List String :=
  ["decorator", "store", "derive", "resolve", "schema", "standaloneSchema", "response"]

/-- Fingerprint properties used to detect structurally-expanded Array types. -/
def ARRAY_FINGERPRINT : List String :=
  ["length", "push", "pop", "concat", "join", "reverse", "shift", "slice",
   "sort", "splice", "indexOf", "forEach", "map", "filter", "reduce", "find"]

/-- Maximum recursion depth for resolveTypeText. -/
def MAX_RESOLVE_DEPTH : Nat := 10

/-! ## EXPANDED_ARRAY_RE
Scanner for
  /\[\s*Symbol\.\s*(unscopables|iterator)\s*\]|(?:pop|push|shift|splice|concat|reverse|forEach|indexOf)\??\s*:/
as a test for existence of a match. -/

/-- The method-name alternatives of the second branch of EXPANDED_ARRAY_RE. -/
def expandedArrayWords : List (List Char) :=
  ["pop".toList, "push".toList, "shift".toList, "splice".toList,
   "concat".toList, "reverse".toList, "forEach".toList, "indexOf".toList]

/-- Attempt of the first alternative of EXPANDED_ARRAY_RE at the head of the
list: a bracket, optional whitespace, Symbol., optional whitespace, one of the
two keywords, optional whitespace, and a closing bracket. -/
def expandedArrayAlt1At (cs : List Char) : Bool :=
  match cs with
  | '[' :: rest =>
    let rest := rest.dropWhile jsWhitespace
    if charsStartWith rest "Symbol.".toList then
      let rest := rest.drop 7
      let rest := rest.dropWhile jsWhitespace
      let tryWord (w : List Char) : Bool :=
        charsStartWith rest w &&
          (match (rest.drop w.length).dropWhile jsWhitespace with
           | ']' :: _ => true
           | _ => false)
      tryWord "unscopables".toList || tryWord "iterator".toList
    else false
  | _ => false

/-- Attempt of the second alternative of EXPANDED_ARRAY_RE at the head of the
list: a method name, an optional question mark, optional whitespace, a colon. -/
def expandedArrayAlt2At (cs : List Char) : Bool :=
  expandedArrayWords.any fun w =>
    charsStartWith cs w &&
      (let rest := cs.drop w.length
       let rest := match rest with
         | '?' :: r => r
         | r => r
       match rest.dropWhile jsWhitespace with
       | ':' :: _ => true
       | _ => false)

/-- Existence of a match of EXPANDED_ARRAY_RE anywhere in the list. -/
def expandedArrayCore : List Char → Bool
  | [] => false
  | c :: cs => expandedArrayAlt1At (c :: cs) || expandedArrayAlt2At (c :: cs) || expandedArrayCore cs

/-- EXPANDED_ARRAY_RE.test(text). -/
def expandedArrayTest (s : String) : Bool :=
  expandedArrayCore s.toList

/-! ## DUPLICATE_UNION_RE
Scanner for /\b(undefined|null)\b[^;\x7b\x7d]*?\|\s*\1\b/ as an existence
test: a nullable keyword on a word boundary, then characters other than
semicolons and braces, then a union bar, optional whitespace, and the same
keyword again on a word boundary. -/

/-- Tail check of DUPLICATE_UNION_RE after the bar: optional whitespace, the
captured word again, and a word boundary. -/
def dupUnionEndAt (w : List Char) (cs : List Char) : Bool :=
  let rest := cs.dropWhile jsWhitespace
  charsStartWith rest w &&
    (match rest.drop w.length with
     | [] => true
     | c :: _ => !jsWordChar c)

/-- Scan for the bar of DUPLICATE_UNION_RE across the middle characters,
which must avoid semicolons and braces. -/
def dupUnionSeek (w : List Char) : List Char → Bool
  | [] => false
  | c :: cs =>
    if c = '|' && dupUnionEndAt w cs then true
    else if c = ';' || c = '\x7b' || c = '\x7d' then false
    else dupUnionSeek w cs

/-- Attempt of DUPLICATE_UNION_RE with keyword w at the head of the list,
given whether the preceding character was a word character. -/
def dupUnionAt (w : List Char) (prevWord : Bool) (cs : List Char) : Bool :=
  !prevWord && charsStartWith cs w &&
    (let rest := cs.drop w.length
     (match rest with
      | [] => false
      | c :: _ => !jsWordChar c) && dupUnionSeek w rest)

/-- Scan all start positions for DUPLICATE_UNION_RE, tracking the previous
character for the leading word boundary. -/
def dupUnionCore (prevWord : Bool) : List Char → Bool
  | [] => false
  | c :: cs =>
    dupUnionAt "undefined".toList prevWord (c :: cs) ||
    dupUnionAt "null".toList prevWord (c :: cs) ||
    dupUnionCore (jsWordChar c) cs

/-- DUPLICATE_UNION_RE.test(text). -/
def duplicateUnionTest (s : String) : Bool :=
  dupUnionCore false s.toList

/-! ## The semantic type handle
An inductive capture of exactly the ts-morph Type queries the source performs.
Flags are independent Booleans, mirroring the independent query methods on the
opaque handle; the dispatch order of resolveTypeText decides overlaps exactly
as the source does. -/

mutual
inductive Ty : Type where
  | mk
    (isArray : Bool) (arrayElementType : Option Ty)
    (isTuple : Bool) (tupleElements : List Ty)
    (isUnion : Bool) (unionTypes : List Ty)
    (isIntersection : Bool) (intersectionTypes : List Ty)
    (symbolName : Option String) (aliasSymbolName : Option String)
    (typeArguments : List Ty) (aliasTypeArguments : List Ty)
    (isObject : Bool) (callSignatures : Nat) (numberIndexType : Option Ty)
    (properties : List TProp) (text : String) : Ty
inductive TProp : Type where
  | mk (name : String) (optional : Bool) (type : Ty) : TProp
end

/-- Query type.isArray(). -/
def Ty.isArray : Ty → Bool
  | .mk a _ _ _ _ _ _ _ _ _ _ _ _ _ _ _ _ => a

/-- Query type.getArrayElementType(). -/
def Ty.arrayElementType : Ty → Option Ty
  | .mk _ a _ _ _ _ _ _ _ _ _ _ _ _ _ _ _ => a

/-- Query type.isTuple(). -/
def Ty.isTuple : Ty → Bool
  | .mk _ _ a _ _ _ _ _ _ _ _ _ _ _ _ _ _ => a

/-- Query type.getTupleElements(). -/
def Ty.tupleElements : Ty → List Ty
  | .mk _ _ _ a _ _ _ _ _ _ _ _ _ _ _ _ _ => a

/-- Query type.isUnion(). -/
def Ty.isUnion : Ty → Bool
  | .mk _ _ _ _ a _ _ _ _ _ _ _ _ _ _ _ _ => a

/-- Query type.getUnionTypes(). -/
def Ty.unionTypes : Ty → List Ty
  | .mk _ _ _ _ _ a _ _ _ _ _ _ _ _ _ _ _ => a

/-- Query type.isIntersection(). -/
def Ty.isIntersection : Ty → Bool
  | .mk _ _ _ _ _ _ a _ _ _ _ _ _ _ _ _ _ => a

/-- Query type.getIntersectionTypes(). -/
def Ty.intersectionTypes : Ty → List Ty
  | .mk _ _ _ _ _ _ _ a _ _ _ _ _ _ _ _ _ => a

/-- Query type.getSymbol()?.getName(). -/
def Ty.symbolName : Ty → Option String
  | .mk _ _ _ _ _ _ _ _ a _ _ _ _ _ _ _ _ => a

/-- Query type.getAliasSymbol()?.getName(). -/
def Ty.aliasSymbolName : Ty → Option String
  | .mk _ _ _ _ _ _ _ _ _ a _ _ _ _ _ _ _ => a

/-- Query type.getTypeArguments(). -/
def Ty.typeArguments : Ty → List Ty
  | .mk _ _ _ _ _ _ _ _ _ _ a _ _ _ _ _ _ => a

/-- Query type.getAliasTypeArguments(). -/
def Ty.aliasTypeArguments : Ty → List Ty
  | .mk _ _ _ _ _ _ _ _ _ _ _ a _ _ _ _ _ => a

/-- Query type.isObject(). -/
def Ty.isObject : Ty → Bool
  | .mk _ _ _ _ _ _ _ _ _ _ _ _ a _ _ _ _ => a

/-- Query type.getCallSignatures().length. -/
def Ty.callSignatures : Ty → Nat
  | .mk _ _ _ _ _ _ _ _ _ _ _ _ _ a _ _ _ => a

/-- Query type.getNumberIndexType(). -/
def Ty.numberIndexType : Ty → Option Ty
  | .mk _ _ _ _ _ _ _ _ _ _ _ _ _ _ a _ _ => a

/-- Query type.getProperties(); for intersections this is the merged set. -/
def Ty.properties : Ty → List TProp
  | .mk _ _ _ _ _ _ _ _ _ _ _ _ _ _ _ a _ => a

/-- Query type.getText(enclosingNode, UseAliasDefinedOutsideCurrentScope |
NoTruncation) — the raw rendered text, constant per handle since the source
always passes the same node and flags. -/
def Ty.text : Ty → String
  | .mk _ _ _ _ _ _ _ _ _ _ _ _ _ _ _ _ a => a

/-- Property name (symbol.getName()). -/
def TProp.name : TProp → String
  | .mk a _ _ => a

/-- Property optionality (symbol.isOptional()). -/
def TProp.optional : TProp → Bool
  | .mk _ a _ => a

/-- Property type (symbol.getTypeAtLocation(enclosingNode)). -/
def TProp.type : TProp → Ty
  | .mk _ _ a => a

/-! ## Union canonicalization helpers (lines 168-195) -/

/-- The nullish member set: new Set(["null", "undefined"]). -/
def isNullish (s : String) : Bool :=
  s == "null" || s == "undefined"

/-- The sort comparator (a, b) => aN - bN of line 188-192. -/
def nullishCompare (a b : String) : Int :=
  (if isNullish a then (1 : Int) else 0) - (if isNullish b then (1 : Int) else 0)

/-- Stable insertion used to model Array.prototype.sort, which ES2019 requires
to be stable; an element is placed before the first element it compares
weakly-less than, keeping the original relative order of ties. -/
def jsStableInsert (cmp : String → String → Int) (x : String) : List String → List String
  | [] => [x]
  | y :: ys => if cmp x y ≤ 0 then x :: y :: ys else y :: jsStableInsert cmp x ys

/-- Model of Array.prototype.sort(cmp) as a stable sort (any stable sorting
algorithm computes the same list for a given comparator). -/
def jsStableSort (cmp : String → String → Int) : List String → List String
  | [] => []
  | x :: xs => jsStableInsert cmp x (jsStableSort cmp xs)

/-- The union rendering of lines 168-194 applied to the already-normalized
member strings: deduplicate, collapse false | true to boolean, stable-sort
nullish members last, join with a union bar. -/
def unionRender (parts : List String) : String :=
  let unique := dedupKeepFirst parts
  let hasFalse := unique.contains "false"
  let hasTrue := unique.contains "true"
  let unique :=
    if hasFalse && hasTrue then
      (unique.filter fun p => p != "false" && p != "true") ++ ["boolean"]
    else unique
  " | ".intercalate (jsStableSort nullishCompare unique)

/-! ## resolveTypeText (lines 135-328)
The source recursion is bounded by the depth guard: every recursive call
passes depth + 1 and every call with depth > MAX_RESOLVE_DEPTH returns the
raw text.  The embedding therefore recurses structurally on the fuel
MAX_RESOLVE_DEPTH + 1 - depth, which is 0 exactly when the guard fires. -/

/-- Rendering of one property entry: quoted key if not a valid identifier, a
question mark when optional, and the resolved type. -/
def renderPropEntry (p : TProp) (resolved : String) : String :=
  (if validIdent p.name then p.name else jsonStringify p.name) ++
    (if p.optional then "?" else "") ++ ": " ++ resolved

/-- Property entries of lines 216-227 / 299-312: skip internal symbol-named
properties (names starting with __@), resolve each property type one level
deeper through rec, and render each entry. -/
def objectEntries (rec : Ty → Option String) (props : List TProp) : Option (List String) :=
  (props.filter fun p => !(strStartsWith p.name "__@")).mapM fun p =>
    (rec p.type).map (renderPropEntry p)

/-- Fallback member-wise intersection rendering of lines 233-241: resolve each
member, drop empty object literals, deduplicate, unwrap a single survivor. -/
def intersectionFallback (rec : Ty → Option String) (members : List Ty) : Option String := do
  let parts ← members.mapM rec
  let filtered := parts.filter fun p => p != "\x7b\x7d"
  let unique := dedupKeepFirst filtered
  if unique.length = 0 then some "\x7b\x7d"
  else if unique.length = 1 then unique.get? 0
  else some (" & ".intercalate unique)

/-- The allAnonymousObjects test of lines 204-212. -/
def allAnonymousObjects (members : List Ty) : Bool :=
  (members.all fun m =>
    m.isObject && !m.isArray && m.callSignatures == 0 &&
      !(KNOWN_GENERICS.contains (m.symbolName.getD "")) &&
      !(KNOWN_GENERICS.contains (m.aliasSymbolName.getD ""))) &&
  (members.any fun m => m.properties.length > 0)

/-- The clean-text, property-recursion and raw-text part of the object branch
(lines 284-319), the continuation the fingerprint check falls through to. -/
def resolveObjText (rec : Ty → Option String) (t : Ty) : Option String :=
  if !expandedArrayTest t.text && !duplicateUnionTest t.text then some t.text
  else if t.properties.length > 0 && t.callSignatures == 0 then do
    let entries ← objectEntries rec t.properties
    if entries.length > 0 then
      some ("\x7b " ++ "; ".intercalate entries ++ " \x7d")
    else some t.text
  else some t.text

/-- The object-type part of resolveTypeText, lines 264-327: the structural
array fingerprint collapse, falling through to the clean-text and
property-recursion continuation; non-objects fall to the raw-text return. -/
def resolveObjRest (rec : Ty → Option String) (t : Ty) : Option String :=
  if t.isObject then
    match t.numberIndexType with
    | some nit =>
      let propNames := t.properties.map TProp.name
      let matched := (ARRAY_FINGERPRINT.filter fun fp => propNames.contains fp).length
      if matched * 4 ≥ ARRAY_FINGERPRINT.length * 3 then
        (rec nit).map fun inner => inner ++ "[]"
      else resolveObjText rec t
    | none => resolveObjText rec t
  else some t.text

/-- The tail of resolveTypeText from line 244 on: the well-known generic
preservation, then the object/fallback part. -/
def resolveTail (rec : Ty → Option String) (t : Ty) : Option String :=
  match t.symbolName <|> t.aliasSymbolName with
  | some name =>
    if KNOWN_GENERICS.contains name then
      let typeArgs :=
        if t.typeArguments.length > 0 then t.typeArguments else t.aliasTypeArguments
      if typeArgs.length > 0 then
        (typeArgs.mapM rec).map fun args => name ++ "<" ++ ", ".intercalate args ++ ">"
      else some name
    else resolveObjRest rec t
  | none => resolveObjRest rec t

/-- Fuel-indexed body of resolveTypeText; fuel 0 is the depth guard of lines
141-147, every deeper call shrinks the fuel as it grows the depth. -/
def resolveGo : Nat → Ty → Nat → Option String
  | 0, t, _ => some t.text
  | fuel + 1, t, d =>
    if t.isArray then
      match t.arrayElementType with
      | none => some "unknown[]"
      | some e =>
        (resolveGo fuel e (d + 1)).map fun inner =>
          if e.isUnion || e.isIntersection then "Array<" ++ inner ++ ">"
          else inner ++ "[]"
    else if t.isTuple then
      (t.tupleElements.mapM fun e => resolveGo fuel e (d + 1)).map fun es =>
        "[" ++ ", ".intercalate es ++ "]"
    else if t.isUnion then
      (t.unionTypes.mapM fun e => resolveGo fuel e (d + 1)).map unionRender
    else if t.isIntersection then
      let members := t.intersectionTypes
      if allAnonymousObjects members && members.length > 1 then do
        let entries ← objectEntries (fun e => resolveGo fuel e (d + 1)) t.properties
        if entries.length > 0 then
          some ("\x7b " ++ "; ".intercalate entries ++ " \x7d")
        else intersectionFallback (fun e => resolveGo fuel e (d + 1)) members
      else intersectionFallback (fun e => resolveGo fuel e (d + 1)) members
    else resolveTail (fun e => resolveGo fuel e (d + 1)) t

/-- resolveTypeText(type, enclosingNode, depth); returns none exactly where the
JavaScript run would not return a string. -/
def resolveTypeText (t : Ty) (depth : Nat) : Option String :=
  resolveGo (MAX_RESOLVE_DEPTH + 1 - depth) t depth

/-! ## parseParamsFromPath (lines 330-336)
path.matchAll(/\/:([^/]+)/g) is modelled by a one-pass scanner: a match is a
slash, a colon, and a maximal nonempty run of non-slash characters; matches
are found left to right and do not overlap. -/

/-- Scanner state for the parameter-capture regex. -/
inductive CapSt : Type where
  | norm
  | slash
  | colon
  | cap (acc : List Char)

/-- One-pass scanner equivalent to matchAll of /\/:([^/]+)/g, collecting the
captured group of every match in order. -/
def capsGo : CapSt → List Char → List String
  | .cap acc, [] => [acc.asString]
  | _, [] => []
  | .norm, c :: cs => if c = '/' then capsGo .slash cs else capsGo .norm cs
  | .slash, c :: cs =>
    if c = '/' then capsGo .slash cs
    else if c = ':' then capsGo .colon cs
    else capsGo .norm cs
  | .colon, c :: cs => if c = '/' then capsGo .slash cs else capsGo (.cap [c]) cs
  | .cap acc, c :: cs =>
    if c = '/' then acc.asString :: capsGo .slash cs
    else capsGo (.cap (acc ++ [c])) cs

/-- The captured parameter names of a path, in path order. -/
def paramCaptures (path : String) : List String :=
  capsGo .norm path.toList

/-- parseParamsFromPath(path): an object literal mapping each captured name to
string, or the empty object literal when there are none. -/
def parseParamsFromPath (path : String) : String :=
  let params := paramCaptures path
  if params.isEmpty then "\x7b\x7d"
  else "\x7b" ++ ", ".intercalate (params.map fun name => name ++ ": string") ++ "\x7d"

/-! ## prettyPrintType (lines 338-372)
The character loop reads only the last pushed chunk, so the chunk array is
modelled by the emitted characters plus that last chunk.  "  ".repeat on a
negative count raises RangeError in JavaScript, modelled by none. -/

/-- The single-quote character. -/
def singleQuote : Char := Char.ofNat 39

/-- Model of "  ".repeat(n): none on a negative count (JS RangeError). -/
def repeatIndent (n : Int) : Option (List Char) :=
  if n < 0 then none else some (List.replicate (2 * n.toNat) ' ')

/-- State of the prettyPrintType character loop. -/
structure PPState where
  inString : Bool
  escaped : Bool
  indent : Int
  lastChunk : Option (List Char)

/-- The initial prettyPrintType state. -/
def ppInit : PPState := ⟨false, false, 0, none⟩

/-- One step of the prettyPrintType character loop (lines 345-366): the pushed
characters and the successor state, or none when the indent underflows. -/
def ppStep (st : PPState) (c : Char) : Option (List Char × PPState) :=
  if st.escaped then some ([c], { st with escaped := false, lastChunk := some [c] })
  else if c = '\\' then some ([c], { st with escaped := true, lastChunk := some [c] })
  else if c = '"' || c = singleQuote then
    some ([c], { st with inString := !st.inString, lastChunk := some [c] })
  else if st.inString then some ([c], { st with lastChunk := some [c] })
  else if c = '\x7b' || c = '[' then
    (repeatIndent (st.indent + 1)).map fun sp =>
      (c :: '\n' :: sp, { st with indent := st.indent + 1, lastChunk := some sp })
  else if c = '\x7d' || c = ']' then
    (repeatIndent (st.indent - 1)).map fun sp =>
      ('\n' :: sp ++ [c], { st with indent := st.indent - 1, lastChunk := some [c] })
  else if c = ';' || c = ',' then
    (repeatIndent st.indent).map fun sp =>
      (c :: '\n' :: sp, { st with lastChunk := some sp })
  else if c != ' ' || st.lastChunk != some [' '] then
    some ([c], { st with lastChunk := some [c] })
  else some ([], st)

/-- The whole prettyPrintType character loop. -/
def ppFold : PPState → List Char → Option (List Char)
  | _, [] => some []
  | st, c :: cs => do
    let r ← ppStep st c
    let rest ← ppFold r.2 cs
    some (r.1 ++ rest)

/-- State for the global replace of /([;,])\n\s*\n(\s*[\x7d\x5d])/ with
"$1\n$2": scanning, after the punctuation character, or buffering the
whitespace run after its newline. -/
inductive RRSt : Type where
  | norm
  | semi (c0 : Char)
  | buf (c0 : Char) (ws : List Char)

/-- The suffix of a whitespace run after its last newline (group 2 keeps the
whitespace that follows the second matched newline). -/
def afterLastNewline (ws : List Char) : List Char :=
  (ws.reverse.takeWhile fun c => c ≠ '\n').reverse

/-- One-pass model of the global regex replace of line 370: a semicolon or
comma followed by a newline, a whitespace run containing another newline, and
a closing brace or bracket collapses to the punctuation, one newline, the
whitespace after the run's last newline, and the bracket. -/
def ppRRgo : RRSt → List Char → List Char
  | .norm, [] => []
  | .semi c0, [] => [c0]
  | .buf c0 ws, [] => c0 :: '\n' :: ws
  | .norm, c :: cs => if c = ';' || c = ',' then ppRRgo (.semi c) cs else c :: ppRRgo .norm cs
  | .semi c0, c :: cs =>
    if c = '\n' then ppRRgo (.buf c0 []) cs
    else if c = ';' || c = ',' then c0 :: ppRRgo (.semi c) cs
    else c0 :: c :: ppRRgo .norm cs
  | .buf c0 ws, c :: cs =>
    if jsWhitespace c then ppRRgo (.buf c0 (ws ++ [c])) cs
    else if (c = '\x7d' || c = ']') && ws.contains '\n' then
      c0 :: '\n' :: afterLastNewline ws ++ c :: ppRRgo .norm cs
    else if c = ';' || c = ',' then (c0 :: '\n' :: ws) ++ ppRRgo (.semi c) cs
    else (c0 :: '\n' :: ws) ++ c :: ppRRgo .norm cs

/-- Removal of trailing whitespace, the right half of String.prototype.trim. -/
def dropTrailingWs : List Char → List Char
  | [] => []
  | c :: cs =>
    match dropTrailingWs cs with
    | [] => if jsWhitespace c then [] else [c]
    | r => c :: r

/-- Model of String.prototype.trim. -/
def trimCore (l : List Char) : List Char :=
  dropTrailingWs (l.dropWhile jsWhitespace)

/-- prettyPrintType(typeStr): the character loop, the blank-line collapsing
replace, and the trim; none exactly when the JS run raises RangeError. -/
def prettyPrintType (typeStr : String) : Option String :=
  (ppFold ppInit typeStr.toList).map fun out =>
    (trimCore (ppRRgo .norm out)).asString

/-! ## The SDK snippet renderer (lines 374-419) -/

/-- Splitter on the slash character, model of String.prototype.split("/"). -/
def splitOnSlash : List Char → List (List Char)
  | [] => [[]]
  | c :: cs =>
    if c = '/' then [] :: splitOnSlash cs
    else
      match splitOnSlash cs with
      | [] => [[c]]
      | s :: rest => (c :: s) :: rest

/-- buildClientPath(path): chain the nonempty path segments onto the client
expression (lines 374-385). -/
def buildClientPath (path : String) : String :=
  (((splitOnSlash path.toList).map List.asString).filter fun s => s != "").foldl
    (fun chain segment =>
      if strStartsWith segment ":" then chain ++ "[params." ++ segment.drop 1 ++ "]"
      else if validIdent segment then chain ++ "." ++ segment
      else chain ++ "[\"" ++ segment ++ "\"]")
    "client"

/-- Global replace of /,(\s*\x7d)/ with "$1": a comma directly before
whitespace and a closing brace is dropped. -/
inductive CBSt : Type where
  | norm
  | pend (ws : List Char)

/-- One-pass model of the comma-before-brace removal. -/
def commaBraceGo : CBSt → List Char → List Char
  | .norm, [] => []
  | .pend ws, [] => ',' :: ws
  | .norm, c :: cs => if c = ',' then commaBraceGo (.pend []) cs else c :: commaBraceGo .norm cs
  | .pend ws, c :: cs =>
    if jsWhitespace c then commaBraceGo (.pend (ws ++ [c])) cs
    else if c = '\x7d' then ws ++ '\x7d' :: commaBraceGo .norm cs
    else if c = ',' then (',' :: ws) ++ commaBraceGo (.pend []) cs
    else (',' :: ws) ++ c :: commaBraceGo .norm cs

/-- Global replace of the literal ": string" with a quoted example value. -/
def exampleValueGo : List Char → List Char
  | ':' :: ' ' :: 's' :: 't' :: 'r' :: 'i' :: 'n' :: 'g' :: cs =>
    (": \"example-value\"").toList ++ exampleValueGo cs
  | c :: cs => c :: exampleValueGo cs
  | [] => []

/-- The three chained replaces applied to the params type in the SDK snippet
(lines 407-410): semicolons to commas, trailing commas dropped, string fields
given an example value. -/
def sdkParamsTransform (s : String) : String :=
  (exampleValueGo (commaBraceGo .norm (s.toList.map fun c => if c = ';' then ',' else c))).asString

/-- generateSdkCodeBlock (lines 387-419): the fenced usage snippet; absent
lines are modelled by none and dropped like falsy entries by filter(Boolean),
which also drops empty strings. -/
def generateSdkCodeBlock (path method : String) (hasBody hasParams hasQuery : Bool)
    (paramsType sdkImport sdkClientName : String) (sdkClientOptions : Option String) : String :=
  let callArgs := ", ".intercalate
    ([if hasBody then some "body" else none,
      if hasQuery then some "\x7b query \x7d" else none].filterMap id)
  let lines : List (Option String) :=
    [some "```typescript",
     some (sdkImport ++ "\n"),
     some ("const client = " ++ sdkClientName ++ "(" ++ sdkClientOptions.getD "" ++ ");\n"),
     if hasParams then some ("const params = " ++ sdkParamsTransform paramsType ++ ";\n") else none,
     if hasBody then
       some "// Define your request body\nconst body = \x7b\x7d; // Replace with actual body data\n"
     else none,
     if hasQuery then
       some "// Define your query parameters\nconst query = \x7b\x7d; // Replace with actual query data\n"
     else none,
     some ("const response = await " ++ buildClientPath path ++ "." ++ method ++ "(" ++ callArgs ++ ");"),
     some "```\n"]
  "\n".intercalate ((lines.filterMap id).filter fun s => s != "")

/-- formatTypeBlock (lines 421-424): a labeled fenced block around the
pretty-printed type. -/
def formatTypeBlock (label typeStr : String) : Option String :=
  (prettyPrintType typeStr).map fun p =>
    "**" ++ label ++ ":**\n\n```typescript\n" ++ p ++ "\n```\n\n"

/-! ## The route-tree walker (lines 426-521) -/

/-- The routeTypes record of lines 444-449. -/
structure RouteTypes where
  body : String
  params : String
  query : String
  response : String
deriving DecidableEq

/-- The initial routeTypes defaults. -/
def defaultRouteTypes : RouteTypes :=
  ⟨"unknown", "\x7b\x7d", "unknown", "\x7b\x7d"⟩

/-- One iteration of the collection loop of lines 451-459: overwrite the
matching routeTypes field with the normalized property type; other property
names leave the record unchanged. -/
def routeTypeStep (rt : RouteTypes) (p : TProp) : Option RouteTypes :=
  if p.name = "body" then (resolveTypeText p.type 0).map fun s => { rt with body := s }
  else if p.name = "params" then (resolveTypeText p.type 0).map fun s => { rt with params := s }
  else if p.name = "query" then (resolveTypeText p.type 0).map fun s => { rt with query := s }
  else if p.name = "response" then (resolveTypeText p.type 0).map fun s => { rt with response := s }
  else some rt

/-- The collection loop of lines 451-459: walk the method node's properties
and overwrite the matching routeTypes fields, the last occurrence winning. -/
def collectRouteTypes (mty : Ty) : Option RouteTypes :=
  mty.properties.foldlM routeTypeStep defaultRouteTypes

/-- First match of /_ResolvePath<"([^"]+)">/ tried at the head of the list:
the literal prefix, a nonempty run of non-quote characters, and the closing
quote and angle bracket. -/
def resolvePathCaptureAt (cs : List Char) : Option String :=
  if charsStartWith cs "_ResolvePath<\"".toList then
    let rest := cs.drop 14
    let run := rest.takeWhile fun c => c ≠ '"'
    if run.isEmpty then none
    else
      match rest.dropWhile fun c => c ≠ '"' with
      | '"' :: '>' :: _ => some run.asString
      | _ => none
  else none

/-- The group captured by the first match of /_ResolvePath<"([^"]+)">/
anywhere in the list, scanning start positions left to right. -/
def resolvePathCapture : List Char → Option String
  | [] => none
  | c :: cs => resolvePathCaptureAt (c :: cs) <|> resolvePathCapture cs

/-- The params repair of lines 461-464: when the normalized params begins with
the unresolved helper prefix and the pattern matches, substitute the extractor
applied to the captured path text. -/
def repairParams (params : String) : String :=
  if strStartsWith params "_ResolvePath<" then
    match resolvePathCapture params.toList with
    | some inner => parseParamsFromPath inner
    | none => params
  else params

/-- The routeTypes of a method node as emitted, after the params repair. -/
def emittedRouteTypes (mty : Ty) : Option RouteTypes :=
  (collectRouteTypes mty).map fun rt => { rt with params := repairParams rt.params }

/-- The endpoint emission of lines 461-489 for one method node: the collected
and repaired routeTypes, the presence flags compared against the sentinels,
the header, the usage snippet, the optional labeled blocks and the closing
markers, concatenated like parts.join(""). -/
def methodBlock (propName : String) (propType : Ty) (path sdkImport sdkClientName : String)
    (sdkClientOptions : Option String) : Option String :=
  emittedRouteTypes propType >>= fun rt =>
  (if rt.body != "unknown" then formatTypeBlock "Body" rt.body else some "") >>= fun bodyBlock =>
  (if rt.params != "\x7b\x7d" then formatTypeBlock "Params" rt.params else some "") >>=
    fun paramsBlock =>
  (if rt.query != "unknown" then formatTypeBlock "Query" rt.query else some "") >>=
    fun queryBlock =>
  formatTypeBlock "Response" rt.response >>= fun responseBlock =>
  some ("### " ++ strToUpper propName ++ " " ++ path ++
    "\n\n<details>\n<summary>SDK Usage</summary>\n\n" ++
    generateSdkCodeBlock path propName (rt.body != "unknown") (rt.params != "\x7b\x7d")
      (rt.query != "unknown") rt.params sdkImport sdkClientName sdkClientOptions ++
    bodyBlock ++ paramsBlock ++ queryBlock ++ responseBlock ++
    "</details>\n\n" ++ "---\n\n")

mutual
/-- generateDocsFromType (lines 426-521): concatenate the contributions of the
node's properties in declaration order. -/
def generateDocsFromType : Ty → String → String → String → Option String → Option String
  | .mk _ _ _ _ _ _ _ _ _ _ _ _ _ _ _ props _, path, imp, cn, co =>
    walkProps props path imp cn co

/-- The property loop of generateDocsFromType; parts.join("") becomes the
concatenation of the per-property contributions. -/
def walkProps : List TProp → String → String → String → Option String → Option String
  | [], _, _, _, _ => some ""
  | p :: ps, path, imp, cn, co => do
    let head ← walkProp p path imp cn co
    let rest ← walkProps ps path imp cn co
    some (head ++ rest)

/-- The per-property dispatch of lines 437-518: a method node emits an
endpoint unless the accumulated path is empty, the nested-routes marker
recurses with the empty path, internal or reserved-prefix names are skipped,
and any other name extends the path as a segment. -/
def walkProp : TProp → String → String → String → Option String → Option String
  | .mk name _ ty, path, imp, cn, co =>
    if HTTP_METHODS.contains name then
      if path = "" then some "" else methodBlock name ty path imp cn co
    else if name = "~Routes" then
      generateDocsFromType ty "" imp cn co
    else if INTERNAL_PROPS.contains name || strStartsWith name "~" || strStartsWith name "_" then
      some ""
    else
      let separator := if strStartsWith name ":" && path = "" then "" else "/"
      generateDocsFromType ty (path ++ separator ++ name) imp cn co
end

/-! ## Specification-side definitions
These re-state, in the words of the specification, the behaviour the claims
describe; the theorems compare them with the source-derived functions above. -/

/-- Union canonicalization as the specification words it: deduplicate by exact
string equality, substitute a single boolean member for a true and false pair,
stably reorder so that nullish members come after all others while preserving
relative order, and join with a union bar. -/
def unionCanonSpec (parts : List String) : String :=
  let unique := dedupKeepFirst parts
  let unique :=
    if unique.contains "false" && unique.contains "true" then
      (unique.filter fun p => p != "false" && p != "true") ++ ["boolean"]
    else unique
  " | ".intercalate ((unique.filter fun s => !isNullish s) ++ unique.filter isNullish)

/-- The intersection result as claim C6 words it: when every member is an
anonymous object-like type and at least one member has properties, a single
merged object literal over the intersection's own property set; otherwise the
member-wise rendering. -/
def intersectionClaimResult (t : Ty) (d : Nat) : Option String :=
  if allAnonymousObjects t.intersectionTypes then
    (objectEntries (fun e => resolveTypeText e (d + 1)) t.properties).map fun entries =>
      "\x7b " ++ "; ".intercalate entries ++ " \x7d"
  else intersectionFallback (fun e => resolveTypeText e (d + 1)) t.intersectionTypes

/-- The intersection result as amended: the merged literal additionally
requires more than one member and at least one renderable merged entry, and
otherwise falls through to the member-wise rendering. -/
def intersectionAmendedResult (t : Ty) (d : Nat) : Option String :=
  if allAnonymousObjects t.intersectionTypes && t.intersectionTypes.length > 1 then do
    let entries ← objectEntries (fun e => resolveTypeText e (d + 1)) t.properties
    if entries.length > 0 then some ("\x7b " ++ "; ".intercalate entries ++ " \x7d")
    else intersectionFallback (fun e => resolveTypeText e (d + 1)) t.intersectionTypes
  else intersectionFallback (fun e => resolveTypeText e (d + 1)) t.intersectionTypes

/-- The params repair as claim C3 words it: the extractor applied to the
walker's current accumulated path. -/
def repairParamsClaim (params path : String) : String :=
  if strStartsWith params "_ResolvePath<" then parseParamsFromPath path else params

/-- Truncation of a type handle to a finite depth: at the cut only the data
the normalizer reads without recursing survives (flags, symbol names, call
signature count, property names and optionality, and the raw text); below the
cut nothing survives.  The depth-guard theorem shows normalization at depth d
reads no more than this. -/
def truncateTy : Nat → Ty → Ty
  | 0, .mk ia _ it _ iu _ ii _ sn an _ _ io cs _ props txt =>
    .mk ia none it [] iu [] ii [] sn an [] [] io cs none
      (props.map fun p =>
        TProp.mk p.name p.optional (.mk false none false [] false [] false [] none none [] [] false 0 none [] ""))
      txt
  | n + 1, .mk ia ae it tup iu un ii int sn an ta ata io cs nit props txt =>
    .mk ia (ae.map (truncateTy n)) it (tup.map (truncateTy n)) iu (un.map (truncateTy n))
      ii (int.map (truncateTy n)) sn an (ta.map (truncateTy n)) (ata.map (truncateTy n))
      io cs (nit.map (truncateTy n))
      (props.map fun p => TProp.mk p.name p.optional (truncateTy n p.type)) txt

/-- The characters after which the pretty-printer inserts or moves line
breaks; on inputs without them it only collapses spaces and trims. -/
def structuralChar (c : Char) : Bool :=
  c = '\x7b' || c = '\x7d' || c = '[' || c = ']' || c = ';' || c = ','

/-- Abstraction of the prettyPrintType character loop on structural-free
input: the emitted characters, tracking the string and escape state and the
last emitted character. -/
def collapse (inString escaped : Bool) (last : Option Char) : List Char → List Char
  | [] => []
  | c :: cs =>
    if escaped then c :: collapse inString false (some c) cs
    else if c = '\\' then c :: collapse inString true (some c) cs
    else if c = '"' || c = singleQuote then c :: collapse (!inString) false (some c) cs
    else if inString then c :: collapse inString false (some c) cs
    else if c = ' ' ∧ last = some ' ' then collapse inString false last cs
    else c :: collapse inString false (some c) cs

/-- The string-state transition of one collapse step: a quote toggles the
in-string flag when not escaped. -/
def nextInString (i e : Bool) (c : Char) : Bool :=
  if e = false ∧ (c = '"' ∨ c = singleQuote) then !i else i

/-- The escape-state transition of one collapse step: an unescaped backslash
escapes the next character. -/
def nextEscaped (e : Bool) (c : Char) : Bool :=
  decide (e = false ∧ c = '\\')

/-- Join of path segments by slashes. -/
def joinSlash : List (List Char) → List Char
  | [] => []
  | [s] => s
  | s :: rest => s ++ '/' :: joinSlash rest

/-- The parameter name of a colon-prefixed segment, as the specification
describes a parameter segment; a lone colon names nothing. -/
def colonSegParam (s : List Char) : Option String :=
  match s with
  | c :: c2 :: cs => if c = ':' then some ((c2 :: cs).asString) else none
  | _ => none

/-! ## Example fixtures used by witnesses and counterexamples -/

/-- A handle with every query false or empty: only the raw text remains, the
shape of a primitive or unexpanded named type. -/
def leafTy (s : String) : Ty :=
  .mk false none false [] false [] false [] none none [] [] false 0 none [] s

/-- A union handle over the given members. -/
def unionOfTy (ms : List Ty) : Ty :=
  .mk false none false [] true ms false [] none none [] [] false 0 none [] "union"

/-- A plain route-tree node with the given properties. -/
def nodeTy (props : List TProp) (txt : String) : Ty :=
  .mk false none false [] false [] false [] none none [] [] false 0 none props txt

/-- An anonymous object-like handle with the given properties. -/
def anonObjTy (props : List TProp) (txt : String) : Ty :=
  .mk false none false [] false [] false [] none none [] [] true 0 none props txt

/-- A sub-router: a users segment with a get method. -/
def c1Sub : Ty :=
  nodeTy [.mk "users" false (nodeTy [.mk "get" false (leafTy "m")] "U")] "S"

/-- A node whose only property is the nested-routes marker. -/
def c1Marked : Ty :=
  nodeTy [.mk "~Routes" false c1Sub] "T"

/-- A method node whose params type renders as an unresolved helper type
naming a path different from where the route is mounted. -/
def c3Method : Ty :=
  nodeTy [.mk "params" false (leafTy "_ResolvePath<\"/users/:uid\">")] "M"

/-- An intersection of two anonymous object members, one with properties,
whose merged property set carries only an internal symbol-named property. -/
def c6Inter : Ty :=
  .mk false none false [] false []
    true [anonObjTy [.mk "x" false (leafTy "string")] "A", anonObjTy [] "B"]
    none none [] [] false 0 none [.mk "__@iterator@1" false (leafTy "string")] "I"

/-- A one-member intersection fixture for the amended-claim witness. -/
def c6InterW : Ty :=
  .mk false none false [] false []
    true [anonObjTy [.mk "x" false (leafTy "string")] "A", anonObjTy [.mk "y" true (leafTy "number")] "B"]
    none none [] [] false 0 none [.mk "x" false (leafTy "string"), .mk "y" true (leafTy "number")] "I"

/-- An object handle with a numeric index type and twelve of the sixteen
fingerprint member names: a structurally expanded array. -/
def c7Obj : Ty :=
  .mk false none false [] false [] false [] none none [] [] true 0 (some (leafTy "number"))
    ((ARRAY_FINGERPRINT.take 12).map fun n => .mk n false (leafTy "x")) "raw"

/-- A method node with a body property that normalizes to the unknown
sentinel. -/
def c10Body : TProp :=
  .mk "body" false (leafTy "unknown")

/-! # Helper lemmas -/

theorem fuel_succ {d : Nat} (hd : d ≤ MAX_RESOLVE_DEPTH) :
    MAX_RESOLVE_DEPTH + 1 - d = (MAX_RESOLVE_DEPTH - d) + 1 := by
  unfold MAX_RESOLVE_DEPTH at *
  omega

theorem resolveGo_inner_eq (d : Nat) :
    (fun e => resolveGo (MAX_RESOLVE_DEPTH - d) e (d + 1)) =
      fun e => resolveTypeText e (d + 1) := by
  funext e
  unfold resolveTypeText
  congr 1
  unfold MAX_RESOLVE_DEPTH
  omega

theorem jsStableInsert_not_nullish (x : String) (hx : isNullish x = false) (l : List String) :
    jsStableInsert nullishCompare x l = x :: l := by
  cases l with
  | nil => rfl
  | cons y ys =>
    have h : nullishCompare x y ≤ 0 := by
      cases hy : isNullish y <;> simp [nullishCompare, hx, hy]
    simp [jsStableInsert, h]

theorem jsStableInsert_nullish (x : String) (hx : isNullish x = true) :
    ∀ (A B : List String), (∀ a ∈ A, isNullish a = false) → (∀ b ∈ B, isNullish b = true) →
      jsStableInsert nullishCompare x (A ++ B) = A ++ x :: B := by
  intro A
  induction A with
  | nil =>
    intro B _ hB
    cases B with
    | nil => rfl
    | cons b bs =>
      have h : nullishCompare x b ≤ 0 := by
        simp [nullishCompare, hx, hB b (by simp)]
      simp [jsStableInsert, h]
  | cons a as ih =>
    intro B hA hB
    have h : ¬ nullishCompare x a ≤ 0 := by
      simp [nullishCompare, hx, hA a (by simp)]
    simp only [List.cons_append, jsStableInsert, if_neg h]
    exact congrArg (fun l => a :: l) (ih B (fun a2 ha2 => hA a2 (by simp [ha2])) hB)

theorem jsStableSort_partition (l : List String) :
    jsStableSort nullishCompare l =
      (l.filter fun s => !isNullish s) ++ l.filter isNullish := by
  induction l with
  | nil => rfl
  | cons x xs ih =>
    unfold jsStableSort
    rw [ih]
    cases hx : isNullish x with
    | false =>
      rw [jsStableInsert_not_nullish x hx]
      simp [List.filter, hx]
    | true =>
      rw [jsStableInsert_nullish x hx _ _
        (fun a ha => by
          have := List.of_mem_filter ha
          simpa using this)
        (fun b hb => List.of_mem_filter hb)]
      simp [List.filter, hx]

theorem unionRender_eq_spec (parts : List String) : unionRender parts = unionCanonSpec parts := by
  unfold unionRender unionCanonSpec
  simp only [jsStableSort_partition]

theorem resolveTypeText_union (t : Ty) (d : Nat) (hd : d ≤ MAX_RESOLVE_DEPTH)
    (h1 : t.isArray = false) (h2 : t.isTuple = false) (h3 : t.isUnion = true) :
    resolveTypeText t d =
      (t.unionTypes.mapM fun m => resolveTypeText m (d + 1)).map unionRender := by
  rw [show resolveTypeText t d = resolveGo (MAX_RESOLVE_DEPTH + 1 - d) t d from rfl,
    fuel_succ hd]
  simp only [resolveGo, h1, h2, h3, Bool.false_eq_true, if_false, if_true]
  rw [resolveGo_inner_eq d]

/-! # Claim C5: union canonicalization -/

/-- C5: for every union-type handle, normalization deduplicates the members'
normalized strings by exact string equality, substitutes a single boolean
member for a true and false pair, stably reorders null and undefined after
all other members, and joins with a union bar; in particular a union of
string, null, undefined in any input order lists string first. -/
theorem claim_C5 :
    (∀ (t : Ty) (d : Nat), d ≤ MAX_RESOLVE_DEPTH → t.isArray = false → t.isTuple = false →
        t.isUnion = true →
        resolveTypeText t d =
          (t.unionTypes.mapM fun m => resolveTypeText m (d + 1)).map unionCanonSpec) ∧
    resolveTypeText (unionOfTy [leafTy "string", leafTy "null", leafTy "undefined"]) 0 =
      some "string | null | undefined" ∧
    resolveTypeText (unionOfTy [leafTy "string", leafTy "undefined", leafTy "null"]) 0 =
      some "string | undefined | null" ∧
    resolveTypeText (unionOfTy [leafTy "null", leafTy "string", leafTy "undefined"]) 0 =
      some "string | null | undefined" ∧
    resolveTypeText (unionOfTy [leafTy "null", leafTy "undefined", leafTy "string"]) 0 =
      some "string | null | undefined" ∧
    resolveTypeText (unionOfTy [leafTy "undefined", leafTy "string", leafTy "null"]) 0 =
      some "string | undefined | null" ∧
    resolveTypeText (unionOfTy [leafTy "undefined", leafTy "null", leafTy "string"]) 0 =
      some "string | undefined | null" := by
  refine ⟨?_, by decide, by decide, by decide, by decide, by decide, by decide⟩
  intro t d hd h1 h2 h3
  rw [resolveTypeText_union t d hd h1 h2 h3]
  rw [show unionRender = unionCanonSpec from funext unionRender_eq_spec]

/-- Witness for C5 at a concrete union handle. -/
theorem claim_C5_witness :
    resolveTypeText (unionOfTy [leafTy "null", leafTy "string"]) 0 = some "string | null" :=
  (claim_C5.1 (unionOfTy [leafTy "null", leafTy "string"]) 0 (by decide) rfl rfl rfl).trans
    (by decide)

/-! # Claim C7: the structural array fingerprint -/

/-- C7: for every object-like handle that is not an array, tuple, union,
intersection, or well-known named generic, exposing a numeric index signature
and at least twelve of the sixteen fingerprint member names, normalization
returns the normalized numeric-index element type followed by array
brackets. -/
theorem claim_C7 (t e : Ty) (d : Nat) (hd : d ≤ MAX_RESOLVE_DEPTH)
    (h1 : t.isArray = false) (h2 : t.isTuple = false) (h3 : t.isUnion = false)
    (h4 : t.isIntersection = false)
    (hsym : ∀ n, (t.symbolName <|> t.aliasSymbolName) = some n →
      KNOWN_GENERICS.contains n = false)
    (h5 : t.isObject = true) (h6 : t.numberIndexType = some e)
    (h7 : 12 ≤ (ARRAY_FINGERPRINT.filter fun fp =>
      (t.properties.map TProp.name).contains fp).length) :
    resolveTypeText t d = (resolveTypeText e (d + 1)).map fun inner => inner ++ "[]" := by
  rw [show resolveTypeText t d = resolveGo (MAX_RESOLVE_DEPTH + 1 - d) t d from rfl,
    fuel_succ hd]
  simp only [resolveGo, h1, h2, h3, h4, Bool.false_eq_true, if_false]
  rw [resolveGo_inner_eq d]
  have hcount : ((ARRAY_FINGERPRINT.filter fun fp =>
      (t.properties.map TProp.name).contains fp).length) * 4 ≥ ARRAY_FINGERPRINT.length * 3 := by
    have hlen : ARRAY_FINGERPRINT.length = 16 := by decide
    omega
  cases hs : (t.symbolName <|> t.aliasSymbolName) with
  | none =>
    simp only [resolveTail, hs]
    simp only [resolveObjRest, h5, h6, if_true, hcount, ge_iff_le, if_pos]
  | some n =>
    simp only [resolveTail, hs, hsym n hs, Bool.false_eq_true, if_false]
    simp only [resolveObjRest, h5, h6, if_true, hcount, ge_iff_le, if_pos]

/-- Witness for C7 at a concrete fingerprinted handle. -/
theorem claim_C7_witness : resolveTypeText c7Obj 0 = some "number[]" :=
  (claim_C7 c7Obj (leafTy "number") 0 (by decide) rfl rfl rfl rfl
    (fun n h => Option.noConfusion h) rfl rfl (by decide)).trans (by decide)

/-! # Claim C8: the path-parameter extractor -/

theorem capsGo_norm_skip (cs : List Char) (h : '/' ∉ cs) (l : List Char) :
    capsGo .norm (cs ++ l) = capsGo .norm l := by
  induction cs with
  | nil => rfl
  | cons c cs ih =>
    have hc : ¬ c = '/' := fun e => h (by simp [e])
    simp only [List.cons_append, capsGo, if_neg hc]
    exact ih fun hm => h (by simp [hm])

theorem capsGo_cap_run (cs : List Char) (h : '/' ∉ cs) :
    ∀ (acc l : List Char), capsGo (.cap acc) (cs ++ l) = capsGo (.cap (acc ++ cs)) l := by
  induction cs with
  | nil => intro acc l; simp
  | cons c cs ih =>
    intro acc l
    have hc : ¬ c = '/' := fun e => h (by simp [e])
    simp only [List.cons_append, capsGo, if_neg hc]
    rw [show cs.append l = cs ++ l from rfl, ih (fun hm => h (by simp [hm])) (acc ++ [c]) l]
    simp

theorem capsGo_seg_cont (s : List Char) (hne : s ≠ []) (hns : '/' ∉ s) (l : List Char) :
    capsGo .slash (s ++ '/' :: l) =
      match colonSegParam s with
      | some n => n :: capsGo .slash l
      | none => capsGo .slash l := by
  match s with
  | [] => exact absurd rfl hne
  | c :: s2 =>
    have hc : ¬ c = '/' := fun e => hns (by simp [e])
    have hs2 : '/' ∉ s2 := fun hm => hns (by simp [hm])
    by_cases hcolon : c = ':'
    · subst hcolon
      cases s2 with
      | nil =>
        show capsGo .slash (':' :: '/' :: l) = _
        simp [capsGo, colonSegParam]
      | cons c2 cs =>
        have hc2 : ¬ c2 = '/' := fun e => hs2 (by simp [e])
        have hcs : '/' ∉ cs := fun hm => hs2 (by simp [hm])
        show capsGo .slash (':' :: c2 :: (cs ++ '/' :: l)) = _
        simp only [capsGo, if_neg hc2, if_pos rfl]
        rw [capsGo_cap_run cs hcs [c2] ('/' :: l)]
        simp [capsGo, colonSegParam]
    · show capsGo .slash (c :: (s2 ++ '/' :: l)) = _
      simp only [capsGo, if_neg hc, if_neg hcolon]
      rw [capsGo_norm_skip s2 hs2 ('/' :: l)]
      cases s2 with
      | nil => simp [capsGo, colonSegParam, hcolon]
      | cons c2 cs => simp [capsGo, colonSegParam, hcolon]

theorem capsGo_seg_end (s : List Char) (hne : s ≠ []) (hns : '/' ∉ s) :
    capsGo .slash s =
      match colonSegParam s with
      | some n => [n]
      | none => [] := by
  match s with
  | [] => exact absurd rfl hne
  | c :: s2 =>
    have hc : ¬ c = '/' := fun e => hns (by simp [e])
    have hs2 : '/' ∉ s2 := fun hm => hns (by simp [hm])
    by_cases hcolon : c = ':'
    · subst hcolon
      cases s2 with
      | nil => rfl
      | cons c2 cs =>
        have hc2 : ¬ c2 = '/' := fun e => hs2 (by simp [e])
        have hcs : '/' ∉ cs := fun hm => hs2 (by simp [hm])
        show capsGo .slash (':' :: c2 :: cs) = _
        simp only [capsGo, if_neg hc2, if_pos rfl]
        rw [show (cs : List Char) = cs ++ [] by simp, capsGo_cap_run cs hcs [c2] []]
        simp [capsGo, colonSegParam]
    · show capsGo .slash (c :: s2) = _
      simp only [capsGo, if_neg hc, if_neg hcolon]
      rw [show (s2 : List Char) = s2 ++ [] by simp, capsGo_norm_skip s2 hs2 []]
      cases s2 with
      | nil => simp [capsGo, colonSegParam, hcolon]
      | cons c2 cs => simp [capsGo, colonSegParam, hcolon]

theorem capsGo_slash_segs : ∀ (segs : List (List Char)),
    (∀ s ∈ segs, s ≠ [] ∧ '/' ∉ s) →
    capsGo .slash (joinSlash segs) = segs.filterMap colonSegParam := by
  intro segs
  induction segs with
  | nil => intro _; rfl
  | cons s rest ih =>
    intro h
    obtain ⟨hne, hns⟩ := h s (by simp)
    have hrest : ∀ s2 ∈ rest, s2 ≠ [] ∧ '/' ∉ s2 := fun s2 hs2 => h s2 (by simp [hs2])
    cases rest with
    | nil =>
      show capsGo .slash (joinSlash [s]) = _
      rw [show joinSlash [s] = s from rfl, capsGo_seg_end s hne hns]
      cases hcp : colonSegParam s <;> simp [List.filterMap, hcp]
    | cons r rs =>
      show capsGo .slash (joinSlash (s :: r :: rs)) = _
      rw [show joinSlash (s :: r :: rs) = s ++ '/' :: joinSlash (r :: rs) from rfl,
        capsGo_seg_cont s hne hns (joinSlash (r :: rs)), ih hrest]
      cases hcp : colonSegParam s <;> simp [List.filterMap, hcp]

/-- C8: the extractor maps each colon-prefixed segment name to string in path
order, returns the empty object expression without parameter segments, and in
particular handles the two specification examples. -/
theorem claim_C8 :
    parseParamsFromPath "/users/:id/posts/:postId" = "\x7bid: string, postId: string\x7d" ∧
    parseParamsFromPath "/health" = "\x7b\x7d" ∧
    ∀ (segs : List (List Char)), (∀ s ∈ segs, s ≠ [] ∧ '/' ∉ s) →
      parseParamsFromPath (('/' :: joinSlash segs).asString) =
        (let names := segs.filterMap colonSegParam
         if names.isEmpty then "\x7b\x7d"
         else "\x7b" ++ ", ".intercalate (names.map fun n => n ++ ": string") ++ "\x7d") := by
  refine ⟨by decide, by decide, ?_⟩
  intro segs h
  unfold parseParamsFromPath paramCaptures
  rw [List.toList_asString]
  rw [show capsGo .norm ('/' :: joinSlash segs) = capsGo .slash (joinSlash segs) by
    simp [capsGo]]
  rw [capsGo_slash_segs segs h]

/-- Witness for C8 at a concrete two-segment path. -/
theorem claim_C8_witness :
    parseParamsFromPath (('/' :: joinSlash [['a'], [':', 'x']]).asString) = "\x7bx: string\x7d" :=
  (claim_C8.2.2 [['a'], [':', 'x']] (by decide)).trans (by decide)

/-! # Claim C1: the nested-routes marker and the accumulated path -/

/-- C1 counterexample: at a node reached with accumulated path /api whose only
property is the nested-routes marker, the walker documents the mounted routes
under the empty path, not under /api as the claim states; the output differs
from what recursing with the same accumulated path would produce. -/
theorem claim_C1_counterexample :
    generateDocsFromType c1Marked "/api" "imp" "treaty" none =
      generateDocsFromType c1Sub "" "imp" "treaty" none ∧
    generateDocsFromType c1Sub "" "imp" "treaty" none ≠
      generateDocsFromType c1Sub "/api" "imp" "treaty" none := by
  constructor
  · decide
  · decide

/-- C1 amended: for every route node property equal to the reserved
nested-routes marker, the walker recurses into its type with the empty path,
resetting the accumulation, whatever path it had accumulated. -/
theorem claim_C1_amended (sub : Ty) (opt : Bool) (path imp cn : String) (co : Option String) :
    walkProp (.mk "~Routes" opt sub) path imp cn co =
      generateDocsFromType sub "" imp cn co := by
  rfl

/-! # Claim C3: the params repair -/

/-- C3 counterexample: a method node whose params render as an unresolved
helper type naming /users/:uid emits the extractor applied to that embedded
path, regardless of the path the endpoint is mounted at; mounted at
/posts/:pid, the claim would require the extractor of /posts/:pid instead. -/
theorem claim_C3_counterexample :
    (emittedRouteTypes c3Method).map RouteTypes.params = some "\x7buid: string\x7d" ∧
    repairParamsClaim "_ResolvePath<\"/users/:uid\">" "/posts/:pid" = "\x7bpid: string\x7d" ∧
    (emittedRouteTypes c3Method).map RouteTypes.params ≠
      some (repairParamsClaim "_ResolvePath<\"/users/:uid\">" "/posts/:pid") := by
  refine ⟨by decide, by decide, by decide⟩

/-- C3 amended: when the collected params expression begins with the
unresolved-helper prefix and the helper pattern matches, the walker replaces
it with the extractor applied to the path captured inside the helper type
text, not to the accumulated path of the endpoint. -/
theorem claim_C3_amended (mty : Ty) (rt : RouteTypes) (inner : String)
    (h1 : collectRouteTypes mty = some rt)
    (h2 : strStartsWith rt.params "_ResolvePath<" = true)
    (h3 : resolvePathCapture rt.params.toList = some inner) :
    emittedRouteTypes mty = some { rt with params := parseParamsFromPath inner } := by
  have hrp : repairParams rt.params = parseParamsFromPath inner := by
    unfold repairParams
    rw [h2]
    simp only [if_true]
    rw [h3]
  have he : emittedRouteTypes mty = some { rt with params := repairParams rt.params } := by
    unfold emittedRouteTypes
    rw [h1]
    rfl
  rw [he, hrp]

/-- Witness for C3 at the concrete method node. -/
theorem claim_C3_witness :
    emittedRouteTypes c3Method = some { defaultRouteTypes with params := "\x7buid: string\x7d" } :=
  (claim_C3_amended c3Method
      { defaultRouteTypes with params := "_ResolvePath<\"/users/:uid\">" }
      "/users/:uid" (by decide) (by decide) (by decide)).trans (by decide)

/-! # Claim C6: intersection flattening -/

/-- C6 counterexample: an intersection of two anonymous object members, one of
which has properties, whose merged property set holds only an internal
symbol-named property: the claim prescribes the merged object literal, but the
source falls through to the member-wise rendering and joins the members. -/
theorem claim_C6_counterexample :
    resolveTypeText c6Inter 0 = some "A & B" ∧
    intersectionClaimResult c6Inter 0 = some "\x7b  \x7d" ∧
    resolveTypeText c6Inter 0 ≠ intersectionClaimResult c6Inter 0 := by
  refine ⟨by decide, by decide, by decide⟩

/-- C6 amended: for every intersection-type handle the source result is the
claimed one with two further guards: the merged object literal additionally
requires more than one member and at least one renderable merged entry, and
otherwise the member-wise fallback applies. -/
theorem claim_C6_amended (t : Ty) (d : Nat) (hd : d ≤ MAX_RESOLVE_DEPTH)
    (h1 : t.isArray = false) (h2 : t.isTuple = false) (h3 : t.isUnion = false)
    (h4 : t.isIntersection = true) :
    resolveTypeText t d = intersectionAmendedResult t d := by
  rw [show resolveTypeText t d = resolveGo (MAX_RESOLVE_DEPTH + 1 - d) t d from rfl,
    fuel_succ hd]
  simp only [resolveGo, h1, h2, h3, h4, Bool.false_eq_true, if_false, if_true]
  rw [resolveGo_inner_eq d]
  rfl

/-- Witness for C6 at a concrete two-member anonymous intersection. -/
theorem claim_C6_witness :
    resolveTypeText c6InterW 0 = some "\x7b x: string; y?: number \x7d" :=
  (claim_C6_amended c6InterW 0 (by decide) rfl rfl rfl rfl).trans (by decide)

/-! # Claim C2: idempotence of the pretty-printer -/

/-- C2 counterexample: prettyPrintType is not idempotent; on the canonical
empty object literal a second pass inserts further blank lines. -/
theorem claim_C2_counterexample :
    prettyPrintType "\x7b\x7d" = some "\x7b\n  \n\x7d" ∧
    prettyPrintType "\x7b\n  \n\x7d" = some "\x7b\n  \n \n\n\x7d" ∧
    (prettyPrintType "\x7b\x7d").bind prettyPrintType ≠ prettyPrintType "\x7b\x7d" := by
  refine ⟨by decide, by decide, by decide⟩

/-! # Claim C9: totality of normalization -/

theorem optionMapM_some {α β : Type} (f : α → Option β) :
    ∀ (l : List α), (∀ a ∈ l, ∃ b, f a = some b) → ∃ bs, l.mapM f = some bs := by
  intro l
  induction l with
  | nil => exact fun _ => ⟨[], rfl⟩
  | cons a as ih =>
    intro h
    obtain ⟨b, hb⟩ := h a (by simp)
    obtain ⟨bs, hbs⟩ := ih fun x hx => h x (by simp [hx])
    refine ⟨b :: bs, ?_⟩
    rw [List.mapM_cons, hb, hbs]
    rfl

theorem objectEntries_some (rec : Ty → Option String) (hrec : ∀ e, ∃ s, rec e = some s)
    (props : List TProp) : ∃ es, objectEntries rec props = some es := by
  unfold objectEntries
  refine optionMapM_some _ _ fun p _ => ?_
  obtain ⟨s, hs⟩ := hrec p.type
  exact ⟨renderPropEntry p s, by rw [hs]; rfl⟩

theorem interJoin_some (l : List String) :
    ∃ s, (if l.length = 0 then some "\x7b\x7d"
          else if l.length = 1 then l.get? 0
          else some (" & ".intercalate l)) = some s := by
  match l with
  | [] => exact ⟨"\x7b\x7d", rfl⟩
  | [x] => exact ⟨x, rfl⟩
  | x :: y :: rest => exact ⟨" & ".intercalate (x :: y :: rest), rfl⟩

theorem intersectionFallback_some (rec : Ty → Option String) (hrec : ∀ e, ∃ s, rec e = some s)
    (members : List Ty) : ∃ s, intersectionFallback rec members = some s := by
  unfold intersectionFallback
  obtain ⟨parts, hp⟩ := optionMapM_some rec members fun m _ => hrec m
  obtain ⟨s, hs⟩ := interJoin_some (dedupKeepFirst (parts.filter fun p => p != "\x7b\x7d"))
  exact ⟨s, by rw [hp]; exact hs⟩

theorem resolveObjText_some (rec : Ty → Option String) (hrec : ∀ e, ∃ s, rec e = some s)
    (t : Ty) : ∃ s, resolveObjText rec t = some s := by
  unfold resolveObjText
  split
  · exact ⟨t.text, rfl⟩
  · split
    · obtain ⟨es, hes⟩ := objectEntries_some rec hrec t.properties
      rcases Nat.eq_zero_or_pos es.length with h | h
      · exact ⟨t.text, by rw [hes]; exact if_neg (by omega)⟩
      · exact ⟨"\x7b " ++ "; ".intercalate es ++ " \x7d", by rw [hes]; exact if_pos h⟩
    · exact ⟨t.text, rfl⟩

theorem resolveObjRest_some (rec : Ty → Option String) (hrec : ∀ e, ∃ s, rec e = some s)
    (t : Ty) : ∃ s, resolveObjRest rec t = some s := by
  unfold resolveObjRest
  split
  · split
    · rename_i nit heq
      dsimp only
      split
      · obtain ⟨s, hs⟩ := hrec nit
        refine ⟨s ++ "[]", ?_⟩
        rw [hs]
        rfl
      · exact resolveObjText_some rec hrec t
    · exact resolveObjText_some rec hrec t
  · exact ⟨t.text, rfl⟩

theorem resolveTail_some (rec : Ty → Option String) (hrec : ∀ e, ∃ s, rec e = some s)
    (t : Ty) : ∃ s, resolveTail rec t = some s := by
  unfold resolveTail
  split
  · rename_i nm heq
    split
    · dsimp only
      by_cases hP : t.typeArguments.length > 0
      · rw [if_pos hP, if_pos hP]
        obtain ⟨args, hargs⟩ := optionMapM_some rec t.typeArguments fun a _ => hrec a
        refine ⟨nm ++ "<" ++ ", ".intercalate args ++ ">", ?_⟩
        rw [hargs]
        rfl
      · rw [if_neg hP]
        rcases Nat.eq_zero_or_pos t.aliasTypeArguments.length with h0 | hpos
        · exact ⟨nm, by rw [if_neg (by omega)]⟩
        · rw [if_pos hpos]
          obtain ⟨args, hargs⟩ := optionMapM_some rec t.aliasTypeArguments fun a _ => hrec a
          refine ⟨nm ++ "<" ++ ", ".intercalate args ++ ">", ?_⟩
          rw [hargs]
          rfl
    · exact resolveObjRest_some rec hrec t
  · exact resolveObjRest_some rec hrec t

theorem resolveGo_some : ∀ (fuel : Nat) (t : Ty) (d : Nat), ∃ s, resolveGo fuel t d = some s := by
  intro fuel
  induction fuel with
  | zero => exact fun t d => ⟨t.text, rfl⟩
  | succ fuel ih =>
    intro t d
    have hrec : ∀ e, ∃ s, resolveGo fuel e (d + 1) = some s := fun e => ih e (d + 1)
    show ∃ s, resolveGo (fuel + 1) t d = some s
    unfold resolveGo
    split
    · split
      · exact ⟨"unknown[]", rfl⟩
      · rename_i e heq
        obtain ⟨s, hs⟩ := hrec e
        refine ⟨if (e.isUnion || e.isIntersection) = true then "Array<" ++ s ++ ">"
          else s ++ "[]", ?_⟩
        rw [hs]
        rfl
    · split
      · obtain ⟨es, hes⟩ := optionMapM_some _ t.tupleElements fun e _ => hrec e
        refine ⟨"[" ++ ", ".intercalate es ++ "]", ?_⟩
        rw [hes]
        rfl
      · split
        · obtain ⟨es, hes⟩ := optionMapM_some _ t.unionTypes fun e _ => hrec e
          refine ⟨unionRender es, ?_⟩
          rw [hes]
          rfl
        · split
          · dsimp only
            split
            · obtain ⟨es, hes⟩ := objectEntries_some _ hrec t.properties
              obtain ⟨s2, hs2⟩ := intersectionFallback_some _ hrec t.intersectionTypes
              rcases Nat.eq_zero_or_pos es.length with h | h
              · exact ⟨s2, by rw [hes]; exact (if_neg (by omega)).trans hs2⟩
              · exact ⟨"\x7b " ++ "; ".intercalate es ++ " \x7d",
                  by rw [hes]; exact if_pos h⟩
            · exact intersectionFallback_some _ hrec t.intersectionTypes
          · exact resolveTail_some _ hrec t

/-- C9: normalization is total: for every semantic type handle and every
depth, every dispatch branch produces a string, falling back to the raw
rendered text when no rule applies; no input shape reaches a failing
operation. -/
theorem claim_C9 (t : Ty) (d : Nat) : ∃ s, resolveTypeText t d = some s :=
  resolveGo_some (MAX_RESOLVE_DEPTH + 1 - d) t d

/-! # Claim C4: the depth guard and cycle safety -/

theorem optionMapM_map {α β γ : Type} (g : α → β) (f : β → Option γ) (l : List α) :
    (l.map g).mapM f = l.mapM fun a => f (g a) := by
  induction l with
  | nil => rfl
  | cons a as ih => rw [List.map_cons, List.mapM_cons, List.mapM_cons, ih]

theorem truncate_isArray (n : Nat) (t : Ty) : (truncateTy n t).isArray = t.isArray := by
  cases n <;> cases t <;> rfl

theorem truncate_isTuple (n : Nat) (t : Ty) : (truncateTy n t).isTuple = t.isTuple := by
  cases n <;> cases t <;> rfl

theorem truncate_isUnion (n : Nat) (t : Ty) : (truncateTy n t).isUnion = t.isUnion := by
  cases n <;> cases t <;> rfl

theorem truncate_isIntersection (n : Nat) (t : Ty) :
    (truncateTy n t).isIntersection = t.isIntersection := by
  cases n <;> cases t <;> rfl

theorem truncate_isObject (n : Nat) (t : Ty) : (truncateTy n t).isObject = t.isObject := by
  cases n <;> cases t <;> rfl

theorem truncate_callSignatures (n : Nat) (t : Ty) :
    (truncateTy n t).callSignatures = t.callSignatures := by
  cases n <;> cases t <;> rfl

theorem truncate_symbolName (n : Nat) (t : Ty) : (truncateTy n t).symbolName = t.symbolName := by
  cases n <;> cases t <;> rfl

theorem truncate_aliasSymbolName (n : Nat) (t : Ty) :
    (truncateTy n t).aliasSymbolName = t.aliasSymbolName := by
  cases n <;> cases t <;> rfl

theorem truncate_text (n : Nat) (t : Ty) : (truncateTy n t).text = t.text := by
  cases n <;> cases t <;> rfl

theorem truncate_properties_length (n : Nat) (t : Ty) :
    (truncateTy n t).properties.length = t.properties.length := by
  cases n <;> cases t <;> simp [truncateTy, Ty.properties]

theorem truncate_prop_names (n : Nat) (t : Ty) :
    (truncateTy n t).properties.map TProp.name = t.properties.map TProp.name := by
  cases n <;> cases t <;> simp [truncateTy, Ty.properties, List.map_map] <;>
    exact fun a _ => rfl

theorem truncate_succ_arrayElem (n : Nat) (t : Ty) :
    (truncateTy (n + 1) t).arrayElementType = t.arrayElementType.map (truncateTy n) := by
  cases t
  rfl

theorem truncate_succ_tuple (n : Nat) (t : Ty) :
    (truncateTy (n + 1) t).tupleElements = t.tupleElements.map (truncateTy n) := by
  cases t
  rfl

theorem truncate_succ_union (n : Nat) (t : Ty) :
    (truncateTy (n + 1) t).unionTypes = t.unionTypes.map (truncateTy n) := by
  cases t
  rfl

theorem truncate_succ_inter (n : Nat) (t : Ty) :
    (truncateTy (n + 1) t).intersectionTypes = t.intersectionTypes.map (truncateTy n) := by
  cases t
  rfl

theorem truncate_succ_tyArgs (n : Nat) (t : Ty) :
    (truncateTy (n + 1) t).typeArguments = t.typeArguments.map (truncateTy n) := by
  cases t
  rfl

theorem truncate_succ_aliasArgs (n : Nat) (t : Ty) :
    (truncateTy (n + 1) t).aliasTypeArguments = t.aliasTypeArguments.map (truncateTy n) := by
  cases t
  rfl

theorem truncate_succ_numIdx (n : Nat) (t : Ty) :
    (truncateTy (n + 1) t).numberIndexType = t.numberIndexType.map (truncateTy n) := by
  cases t
  rfl

theorem truncate_succ_props (n : Nat) (t : Ty) :
    (truncateTy (n + 1) t).properties =
      t.properties.map fun p => TProp.mk p.name p.optional (truncateTy n p.type) := by
  cases t
  rfl

theorem allAnonymousObjects_trunc (n : Nat) (l : List Ty) :
    allAnonymousObjects (l.map (truncateTy n)) = allAnonymousObjects l := by
  unfold allAnonymousObjects
  rw [List.all_map, List.any_map]
  have h1 : ((fun m : Ty => m.isObject && !m.isArray && m.callSignatures == 0 &&
        !(KNOWN_GENERICS.contains (m.symbolName.getD "")) &&
        !(KNOWN_GENERICS.contains (m.aliasSymbolName.getD ""))) ∘ truncateTy n) =
      fun m : Ty => m.isObject && !m.isArray && m.callSignatures == 0 &&
        !(KNOWN_GENERICS.contains (m.symbolName.getD "")) &&
        !(KNOWN_GENERICS.contains (m.aliasSymbolName.getD "")) := by
    funext m
    simp [Function.comp, truncate_isObject, truncate_isArray, truncate_callSignatures,
      truncate_symbolName, truncate_aliasSymbolName]
  have h2 : ((fun m : Ty => decide (m.properties.length > 0)) ∘ truncateTy n) =
      fun m : Ty => decide (m.properties.length > 0) := by
    funext m
    simp [Function.comp, truncate_properties_length]
  rw [h1, h2]

theorem renderPropEntry_trunc (p : TProp) (x : Ty) :
    renderPropEntry (TProp.mk p.name p.optional x) = renderPropEntry p := by
  cases p
  rfl

theorem objectEntries_trunc (F : Ty → Option String) (n : Nat) (props : List TProp) :
    objectEntries F (props.map fun p => TProp.mk p.name p.optional (truncateTy n p.type)) =
      objectEntries (fun e => F (truncateTy n e)) props := by
  unfold objectEntries
  rw [List.filter_map]
  rw [show ((fun p : TProp => !(strStartsWith p.name "__@")) ∘
      fun p => TProp.mk p.name p.optional (truncateTy n p.type)) =
    fun p : TProp => !(strStartsWith p.name "__@") from funext fun p => rfl]
  rw [optionMapM_map]
  refine congrArg (fun f : TProp → Option String =>
    List.mapM f (props.filter fun p => !(strStartsWith p.name "__@"))) ?_
  funext p
  show Option.map (renderPropEntry (TProp.mk p.name p.optional (truncateTy n p.type)))
      (F (truncateTy n p.type)) = Option.map (renderPropEntry p) (F (truncateTy n p.type))
  rw [renderPropEntry_trunc]

theorem intersectionFallback_map (F : Ty → Option String) (g : Ty → Ty) (l : List Ty) :
    intersectionFallback F (l.map g) = intersectionFallback (fun e => F (g e)) l := by
  unfold intersectionFallback
  rw [optionMapM_map]

theorem resolveObjText_trunc (F : Ty → Option String) (n : Nat) (t : Ty) :
    resolveObjText F (truncateTy (n + 1) t) =
      resolveObjText (fun e => F (truncateTy n e)) t := by
  unfold resolveObjText
  rw [truncate_text, truncate_succ_props, truncate_callSignatures, objectEntries_trunc]
  rw [show (t.properties.map fun p => TProp.mk p.name p.optional (truncateTy n p.type)).length =
    t.properties.length from List.length_map _ _]

theorem resolveObjRest_trunc (F : Ty → Option String) (n : Nat) (t : Ty) :
    resolveObjRest F (truncateTy (n + 1) t) =
      resolveObjRest (fun e => F (truncateTy n e)) t := by
  unfold resolveObjRest
  rw [truncate_isObject, truncate_succ_numIdx, truncate_text]
  refine if_congr Iff.rfl ?_ rfl
  cases hnit : t.numberIndexType with
  | none => exact resolveObjText_trunc F n t
  | some nit =>
    rw [Option.map_some']
    dsimp only
    rw [truncate_prop_names, resolveObjText_trunc]

theorem resolveTail_trunc (F : Ty → Option String) (n : Nat) (t : Ty) :
    resolveTail F (truncateTy (n + 1) t) = resolveTail (fun e => F (truncateTy n e)) t := by
  unfold resolveTail
  rw [truncate_symbolName, truncate_aliasSymbolName]
  cases hs : (t.symbolName <|> t.aliasSymbolName) with
  | none => exact resolveObjRest_trunc F n t
  | some nm =>
    dsimp only
    rw [truncate_succ_tyArgs, truncate_succ_aliasArgs]
    by_cases hk : KNOWN_GENERICS.contains nm = true
    · simp only [if_pos hk, List.length_map]
      by_cases hP : t.typeArguments.length > 0
      · simp only [if_pos hP, List.length_map, optionMapM_map]
      · simp only [if_neg hP, List.length_map]
        by_cases hA : t.aliasTypeArguments.length > 0
        · simp only [if_pos hA, List.length_map, optionMapM_map]
        · simp only [if_neg hA, List.length_map]
    · simp only [if_neg hk]
      exact resolveObjRest_trunc F n t

theorem resolveGo_trunc : ∀ (fuel : Nat) (t : Ty) (d : Nat),
    resolveGo fuel (truncateTy fuel t) d = resolveGo fuel t d := by
  intro fuel
  induction fuel with
  | zero =>
    intro t d
    cases t
    rfl
  | succ fuel ih =>
    intro t d
    have hfun : (fun e => resolveGo fuel (truncateTy fuel e) (d + 1)) =
        fun e => resolveGo fuel e (d + 1) := funext fun e => ih e (d + 1)
    show resolveGo (fuel + 1) (truncateTy (fuel + 1) t) d = resolveGo (fuel + 1) t d
    unfold resolveGo
    rw [truncate_isArray, truncate_isTuple, truncate_isUnion, truncate_isIntersection,
      truncate_succ_arrayElem, truncate_succ_tuple, truncate_succ_union, truncate_succ_inter,
      truncate_succ_props]
    by_cases hia : t.isArray = true
    · rw [if_pos hia, if_pos hia]
      cases hae : t.arrayElementType with
      | none => rfl
      | some e =>
        rw [Option.map_some']
        dsimp only
        rw [truncate_isUnion, truncate_isIntersection, ih e (d + 1)]
    · rw [if_neg hia, if_neg hia]
      by_cases hit : t.isTuple = true
      · rw [if_pos hit, if_pos hit, optionMapM_map]
        rw [hfun]
      · rw [if_neg hit, if_neg hit]
        by_cases hiu : t.isUnion = true
        · rw [if_pos hiu, if_pos hiu, optionMapM_map]
          rw [hfun]
        · rw [if_neg hiu, if_neg hiu]
          by_cases hii : t.isIntersection = true
          · rw [if_pos hii, if_pos hii]
            simp only [allAnonymousObjects_trunc, List.length_map]
            rw [objectEntries_trunc, intersectionFallback_map]
            rw [hfun]
          · rw [if_neg hii, if_neg hii]
            calc resolveTail (fun e => resolveGo fuel e (d + 1)) (truncateTy (fuel + 1) t)
                = resolveTail (fun e => resolveGo fuel (truncateTy fuel e) (d + 1)) t :=
                  resolveTail_trunc _ fuel t
              _ = resolveTail (fun e => resolveGo fuel e (d + 1)) t := by rw [hfun]

/-- C4: normalization is depth-guarded: a call with depth strictly greater
than the bound returns the raw rendered text without recursing, and the
result at depth d depends only on the part of the type graph within the
remaining recursion budget, so a self-referential handle cannot cause
non-termination. -/
theorem claim_C4 :
    (∀ (t : Ty) (d : Nat), MAX_RESOLVE_DEPTH < d → resolveTypeText t d = some t.text) ∧
    (∀ (t : Ty) (d : Nat),
      resolveTypeText t d = resolveTypeText (truncateTy (MAX_RESOLVE_DEPTH + 1 - d) t) d) := by
  constructor
  · intro t d hd
    rw [show resolveTypeText t d = resolveGo (MAX_RESOLVE_DEPTH + 1 - d) t d from rfl]
    rw [show MAX_RESOLVE_DEPTH + 1 - d = 0 by unfold MAX_RESOLVE_DEPTH at *; omega]
    rfl
  · intro t d
    rw [show resolveTypeText t d = resolveGo (MAX_RESOLVE_DEPTH + 1 - d) t d from rfl,
      show resolveTypeText (truncateTy (MAX_RESOLVE_DEPTH + 1 - d) t) d =
        resolveGo (MAX_RESOLVE_DEPTH + 1 - d) (truncateTy (MAX_RESOLVE_DEPTH + 1 - d) t) d
        from rfl]
    rw [resolveGo_trunc]

/-- Witness for C4 beyond the depth bound at a concrete handle. -/
theorem claim_C4_witness : resolveTypeText (leafTy "raw") 11 = some "raw" :=
  claim_C4.1 (leafTy "raw") 11 (by decide)

/-! # Claim C10: the presence sentinels -/

theorem routeTypeStep_body_eq (rt : RouteTypes) (p : TProp) (h : ¬ p.name = "body")
    (rt2 : RouteTypes) (hstep : routeTypeStep rt p = some rt2) : rt2.body = rt.body := by
  unfold routeTypeStep at hstep
  rw [if_neg h] at hstep
  by_cases h2 : p.name = "params"
  · rw [if_pos h2] at hstep
    cases hr : resolveTypeText p.type 0 with
    | none => rw [hr] at hstep; cases hstep
    | some s => rw [hr, Option.map_some'] at hstep; cases hstep; rfl
  · rw [if_neg h2] at hstep
    by_cases h3 : p.name = "query"
    · rw [if_pos h3] at hstep
      cases hr : resolveTypeText p.type 0 with
      | none => rw [hr] at hstep; cases hstep
      | some s => rw [hr, Option.map_some'] at hstep; cases hstep; rfl
    · rw [if_neg h3] at hstep
      by_cases h4 : p.name = "response"
      · rw [if_pos h4] at hstep
        cases hr : resolveTypeText p.type 0 with
        | none => rw [hr] at hstep; cases hstep
        | some s => rw [hr, Option.map_some'] at hstep; cases hstep; rfl
      · rw [if_neg h4] at hstep
        cases hstep
        rfl

theorem routeTypeStep_params_eq (rt : RouteTypes) (p : TProp) (h : ¬ p.name = "params")
    (rt2 : RouteTypes) (hstep : routeTypeStep rt p = some rt2) : rt2.params = rt.params := by
  unfold routeTypeStep at hstep
  by_cases h1 : p.name = "body"
  · rw [if_pos h1] at hstep
    cases hr : resolveTypeText p.type 0 with
    | none => rw [hr] at hstep; cases hstep
    | some s => rw [hr, Option.map_some'] at hstep; cases hstep; rfl
  · rw [if_neg h1, if_neg h] at hstep
    by_cases h3 : p.name = "query"
    · rw [if_pos h3] at hstep
      cases hr : resolveTypeText p.type 0 with
      | none => rw [hr] at hstep; cases hstep
      | some s => rw [hr, Option.map_some'] at hstep; cases hstep; rfl
    · rw [if_neg h3] at hstep
      by_cases h4 : p.name = "response"
      · rw [if_pos h4] at hstep
        cases hr : resolveTypeText p.type 0 with
        | none => rw [hr] at hstep; cases hstep
        | some s => rw [hr, Option.map_some'] at hstep; cases hstep; rfl
      · rw [if_neg h4] at hstep
        cases hstep
        rfl

theorem routeTypeStep_query_eq (rt : RouteTypes) (p : TProp) (h : ¬ p.name = "query")
    (rt2 : RouteTypes) (hstep : routeTypeStep rt p = some rt2) : rt2.query = rt.query := by
  unfold routeTypeStep at hstep
  by_cases h1 : p.name = "body"
  · rw [if_pos h1] at hstep
    cases hr : resolveTypeText p.type 0 with
    | none => rw [hr] at hstep; cases hstep
    | some s => rw [hr, Option.map_some'] at hstep; cases hstep; rfl
  · rw [if_neg h1] at hstep
    by_cases h2 : p.name = "params"
    · rw [if_pos h2] at hstep
      cases hr : resolveTypeText p.type 0 with
      | none => rw [hr] at hstep; cases hstep
      | some s => rw [hr, Option.map_some'] at hstep; cases hstep; rfl
    · rw [if_neg h2, if_neg h] at hstep
      by_cases h4 : p.name = "response"
      · rw [if_pos h4] at hstep
        cases hr : resolveTypeText p.type 0 with
        | none => rw [hr] at hstep; cases hstep
        | some s => rw [hr, Option.map_some'] at hstep; cases hstep; rfl
      · rw [if_neg h4] at hstep
        cases hstep
        rfl

theorem fold_body_eq (L : List TProp) (h : ∀ q ∈ L, ¬ q.name = "body") :
    ∀ (rt rt2 : RouteTypes), L.foldlM routeTypeStep rt = some rt2 → rt2.body = rt.body := by
  induction L with
  | nil => intro rt rt2 hf; cases hf; rfl
  | cons q qs ih =>
    intro rt rt2 hf
    rw [List.foldlM_cons] at hf
    cases hq : routeTypeStep rt q with
    | none => rw [hq] at hf; cases hf
    | some rtm =>
      rw [hq] at hf
      have h1 := routeTypeStep_body_eq rt q (h q (by simp)) rtm hq
      have h2 := ih (fun x hx => h x (by simp [hx])) rtm rt2 hf
      rw [h2, h1]

theorem fold_params_eq (L : List TProp) (h : ∀ q ∈ L, ¬ q.name = "params") :
    ∀ (rt rt2 : RouteTypes), L.foldlM routeTypeStep rt = some rt2 → rt2.params = rt.params := by
  induction L with
  | nil => intro rt rt2 hf; cases hf; rfl
  | cons q qs ih =>
    intro rt rt2 hf
    rw [List.foldlM_cons] at hf
    cases hq : routeTypeStep rt q with
    | none => rw [hq] at hf; cases hf
    | some rtm =>
      rw [hq] at hf
      have h1 := routeTypeStep_params_eq rt q (h q (by simp)) rtm hq
      have h2 := ih (fun x hx => h x (by simp [hx])) rtm rt2 hf
      rw [h2, h1]

theorem fold_query_eq (L : List TProp) (h : ∀ q ∈ L, ¬ q.name = "query") :
    ∀ (rt rt2 : RouteTypes), L.foldlM routeTypeStep rt = some rt2 → rt2.query = rt.query := by
  induction L with
  | nil => intro rt rt2 hf; cases hf; rfl
  | cons q qs ih =>
    intro rt rt2 hf
    rw [List.foldlM_cons] at hf
    cases hq : routeTypeStep rt q with
    | none => rw [hq] at hf; cases hf
    | some rtm =>
      rw [hq] at hf
      have h1 := routeTypeStep_query_eq rt q (h q (by simp)) rtm hq
      have h2 := ih (fun x hx => h x (by simp [hx])) rtm rt2 hf
      rw [h2, h1]

theorem collect_mid_body (L1 L2 : List TProp) (opt : Bool) (bty : Ty)
    (h1 : ∀ q ∈ L1, ¬ q.name = "body") (hb : resolveTypeText bty 0 = some "unknown")
    (t1 t2 : Ty) (hp1 : t1.properties = L1 ++ TProp.mk "body" opt bty :: L2)
    (hp2 : t2.properties = L1 ++ L2) :
    collectRouteTypes t1 = collectRouteTypes t2 := by
  unfold collectRouteTypes
  rw [hp1, hp2, List.foldlM_append, List.foldlM_append]
  cases hL1 : L1.foldlM routeTypeStep defaultRouteTypes with
  | none => rfl
  | some rt1 =>
    have hbody : rt1.body = "unknown" := fold_body_eq L1 h1 defaultRouteTypes rt1 hL1
    show ((TProp.mk "body" opt bty :: L2).foldlM routeTypeStep rt1) = L2.foldlM routeTypeStep rt1
    rw [List.foldlM_cons]
    rw [show routeTypeStep rt1 (TProp.mk "body" opt bty) = some rt1 by
      unfold routeTypeStep
      dsimp only [TProp.name, TProp.type]
      rw [if_pos rfl, hb, Option.map_some']
      rw [show ({ rt1 with body := "unknown" } : RouteTypes) = rt1 by rw [← hbody]]]
    rfl

theorem collect_mid_params (L1 L2 : List TProp) (opt : Bool) (pty : Ty)
    (h1 : ∀ q ∈ L1, ¬ q.name = "params") (hb : resolveTypeText pty 0 = some "\x7b\x7d")
    (t1 t2 : Ty) (hp1 : t1.properties = L1 ++ TProp.mk "params" opt pty :: L2)
    (hp2 : t2.properties = L1 ++ L2) :
    collectRouteTypes t1 = collectRouteTypes t2 := by
  unfold collectRouteTypes
  rw [hp1, hp2, List.foldlM_append, List.foldlM_append]
  cases hL1 : L1.foldlM routeTypeStep defaultRouteTypes with
  | none => rfl
  | some rt1 =>
    have hpar : rt1.params = "\x7b\x7d" := fold_params_eq L1 h1 defaultRouteTypes rt1 hL1
    show ((TProp.mk "params" opt pty :: L2).foldlM routeTypeStep rt1) = L2.foldlM routeTypeStep rt1
    rw [List.foldlM_cons]
    rw [show routeTypeStep rt1 (TProp.mk "params" opt pty) = some rt1 by
      unfold routeTypeStep
      dsimp only [TProp.name, TProp.type]
      rw [if_neg (by decide), if_pos rfl, hb, Option.map_some']
      rw [show ({ rt1 with params := "\x7b\x7d" } : RouteTypes) = rt1 by rw [← hpar]]]
    rfl

theorem collect_mid_query (L1 L2 : List TProp) (opt : Bool) (qty : Ty)
    (h1 : ∀ q ∈ L1, ¬ q.name = "query") (hb : resolveTypeText qty 0 = some "unknown")
    (t1 t2 : Ty) (hp1 : t1.properties = L1 ++ TProp.mk "query" opt qty :: L2)
    (hp2 : t2.properties = L1 ++ L2) :
    collectRouteTypes t1 = collectRouteTypes t2 := by
  unfold collectRouteTypes
  rw [hp1, hp2, List.foldlM_append, List.foldlM_append]
  cases hL1 : L1.foldlM routeTypeStep defaultRouteTypes with
  | none => rfl
  | some rt1 =>
    have hq : rt1.query = "unknown" := fold_query_eq L1 h1 defaultRouteTypes rt1 hL1
    show ((TProp.mk "query" opt qty :: L2).foldlM routeTypeStep rt1) = L2.foldlM routeTypeStep rt1
    rw [List.foldlM_cons]
    rw [show routeTypeStep rt1 (TProp.mk "query" opt qty) = some rt1 by
      unfold routeTypeStep
      dsimp only [TProp.name, TProp.type]
      rw [if_neg (by decide), if_neg (by decide), if_pos rfl, hb, Option.map_some']
      rw [show ({ rt1 with query := "unknown" } : RouteTypes) = rt1 by rw [← hq]]]
    rfl

theorem methodBlock_collect_congr (m : String) (t1 t2 : Ty) (path imp cn : String)
    (co : Option String) (hc : collectRouteTypes t1 = collectRouteTypes t2) :
    methodBlock m t1 path imp cn co = methodBlock m t2 path imp cn co := by
  unfold methodBlock emittedRouteTypes
  rw [hc]

theorem optionBindSome {α β : Type} (a : α) (f : α → Option β) : (some a >>= f) = f a := rfl

theorem methodBlock_eq (m : String) (mty : Ty) (path imp cn : String) (co : Option String) :
    methodBlock m mty path imp cn co =
      (emittedRouteTypes mty) >>= fun rt =>
      (if rt.body != "unknown" then formatTypeBlock "Body" rt.body else some "") >>= fun bodyBlock =>
      (if rt.params != "\x7b\x7d" then formatTypeBlock "Params" rt.params else some "") >>= fun paramsBlock =>
      (if rt.query != "unknown" then formatTypeBlock "Query" rt.query else some "") >>= fun queryBlock =>
      (formatTypeBlock "Response" rt.response) >>= fun responseBlock =>
      some ("### " ++ strToUpper m ++ " " ++ path ++
        "\n\n<details>\n<summary>SDK Usage</summary>\n\n" ++
        generateSdkCodeBlock path m (rt.body != "unknown") (rt.params != "\x7b\x7d")
          (rt.query != "unknown") rt.params imp cn co ++
        bodyBlock ++ paramsBlock ++ queryBlock ++ responseBlock ++
        "</details>\n\n" ++ "---\n\n") := by
  unfold methodBlock
  rfl

/-- C10: presence of body, params and query in an emitted endpoint is decided
by exact comparison against the default sentinels: a body or query normalizing
to unknown, or params normalizing to the empty object literal, renders the
endpoint exactly as if the method node had no such property at all, and the
response block is always part of the emitted output. -/
theorem claim_C10 :
    (∀ (L1 L2 : List TProp) (opt : Bool) (bty : Ty) (t1 t2 : Ty)
        (m path imp cn : String) (co : Option String),
      (∀ q ∈ L1, ¬ q.name = "body") → resolveTypeText bty 0 = some "unknown" →
      t1.properties = L1 ++ TProp.mk "body" opt bty :: L2 → t2.properties = L1 ++ L2 →
      methodBlock m t1 path imp cn co = methodBlock m t2 path imp cn co) ∧
    (∀ (L1 L2 : List TProp) (opt : Bool) (pty : Ty) (t1 t2 : Ty)
        (m path imp cn : String) (co : Option String),
      (∀ q ∈ L1, ¬ q.name = "params") → resolveTypeText pty 0 = some "\x7b\x7d" →
      t1.properties = L1 ++ TProp.mk "params" opt pty :: L2 → t2.properties = L1 ++ L2 →
      methodBlock m t1 path imp cn co = methodBlock m t2 path imp cn co) ∧
    (∀ (L1 L2 : List TProp) (opt : Bool) (qty : Ty) (t1 t2 : Ty)
        (m path imp cn : String) (co : Option String),
      (∀ q ∈ L1, ¬ q.name = "query") → resolveTypeText qty 0 = some "unknown" →
      t1.properties = L1 ++ TProp.mk "query" opt qty :: L2 → t2.properties = L1 ++ L2 →
      methodBlock m t1 path imp cn co = methodBlock m t2 path imp cn co) ∧
    (∀ (m path imp cn : String) (co : Option String) (mty : Ty) (rt : RouteTypes)
        (out : String),
      emittedRouteTypes mty = some rt →
      methodBlock m mty path imp cn co = some out →
      ∃ (rb pre post : String), formatTypeBlock "Response" rt.response = some rb ∧
        out = pre ++ (rb ++ post)) := by
  refine ⟨?_, ?_, ?_, ?_⟩
  · intro L1 L2 opt bty t1 t2 m path imp cn co hL hb hp1 hp2
    exact methodBlock_collect_congr m t1 t2 path imp cn co
      (collect_mid_body L1 L2 opt bty hL hb t1 t2 hp1 hp2)
  · intro L1 L2 opt pty t1 t2 m path imp cn co hL hb hp1 hp2
    exact methodBlock_collect_congr m t1 t2 path imp cn co
      (collect_mid_params L1 L2 opt pty hL hb t1 t2 hp1 hp2)
  · intro L1 L2 opt qty t1 t2 m path imp cn co hL hb hp1 hp2
    exact methodBlock_collect_congr m t1 t2 path imp cn co
      (collect_mid_query L1 L2 opt qty hL hb t1 t2 hp1 hp2)
  · intro m path imp cn co mty rt out hemit hmb
    rw [methodBlock_eq, hemit, optionBindSome] at hmb
    cases hbb : (if rt.body != "unknown" then formatTypeBlock "Body" rt.body else some "") with
    | none => rw [hbb] at hmb; cases hmb
    | some bodyBlock =>
    rw [hbb, optionBindSome] at hmb
    cases hpb : (if rt.params != "\x7b\x7d" then formatTypeBlock "Params" rt.params
        else some "") with
    | none => rw [hpb] at hmb; cases hmb
    | some paramsBlock =>
    rw [hpb, optionBindSome] at hmb
    cases hqb : (if rt.query != "unknown" then formatTypeBlock "Query" rt.query else some "") with
    | none => rw [hqb] at hmb; cases hmb
    | some queryBlock =>
    rw [hqb, optionBindSome] at hmb
    cases hrb : formatTypeBlock "Response" rt.response with
    | none => rw [hrb] at hmb; cases hmb
    | some responseBlock =>
    rw [hrb, optionBindSome] at hmb
    refine ⟨responseBlock,
      "### " ++ strToUpper m ++ " " ++ path ++ "\n\n<details>\n<summary>SDK Usage</summary>\n\n" ++
        generateSdkCodeBlock path m (rt.body != "unknown") (rt.params != "\x7b\x7d")
          (rt.query != "unknown") rt.params imp cn co ++ bodyBlock ++ paramsBlock ++ queryBlock,
      "</details>\n\n" ++ "---\n\n", rfl, ?_⟩
    cases hmb
    simp only [String.append_assoc]

/-- Witness for C10: a method node with a body property normalizing to the
unknown sentinel renders exactly as the node without it. -/
theorem claim_C10_witness :
    methodBlock "get" (nodeTy [c10Body] "M") "/x" "imp" "treaty" none =
      methodBlock "get" (nodeTy [] "M") "/x" "imp" "treaty" none :=
  claim_C10.1 [] [] false (leafTy "unknown") (nodeTy [c10Body] "M") (nodeTy [] "M")
    "get" "/x" "imp" "treaty" none (by simp) (by decide) rfl rfl

/-! # Claim C2, amended: the pretty-printer on structural-free input -/

theorem structural_ne (c : Char) (h : structuralChar c = false) :
    ¬ c = '\x7b' ∧ ¬ c = '\x7d' ∧ ¬ c = '[' ∧ ¬ c = ']' ∧ ¬ c = ';' ∧ ¬ c = ',' := by
  refine ⟨?_, ?_, ?_, ?_, ?_, ?_⟩ <;> intro hh <;> subst hh <;> exact absurd h (by decide)

theorem ws_not_special (c : Char) (h : jsWhitespace c = true) :
    ¬ c = '\\' ∧ ¬ c = '"' ∧ ¬ c = singleQuote := by
  refine ⟨?_, ?_, ?_⟩ <;> intro hh <;> subst hh <;> exact absurd h (by decide)

theorem collapse_cons_push (i e : Bool) (l : Option Char) (c : Char) (ds : List Char)
    (hskip : ¬(e = false ∧ i = false ∧ c = ' ' ∧ l = some ' ')) :
    collapse i e l (c :: ds) =
      c :: collapse (nextInString i e c) (nextEscaped e c) (some c) ds := by
  cases e with
  | true => simp [collapse, nextInString, nextEscaped]
  | false =>
    by_cases hbs : c = '\\'
    · have hns : ¬ ('\\' : Char) = singleQuote := by decide
      simp [collapse, nextInString, nextEscaped, hbs, hns]
    · by_cases hq : c = '"' ∨ c = singleQuote
      · have hq1ne : ¬ ('"' : Char) = '\\' := by decide
        have hq2ne : ¬ singleQuote = '\\' := by decide
        rcases hq with hq | hq <;>
          simp [collapse, nextInString, nextEscaped, hbs, hq, hq1ne, hq2ne]
      · have hq1 : ¬ c = '"' := fun hh => hq (Or.inl hh)
        have hq2 : ¬ c = singleQuote := fun hh => hq (Or.inr hh)
        cases i with
        | true => simp [collapse, nextInString, nextEscaped, hbs, hq1, hq2]
        | false =>
          have hsp : ¬(c = ' ' ∧ l = some ' ') := fun hcl => hskip ⟨rfl, rfl, hcl.1, hcl.2⟩
          simp [collapse, nextInString, nextEscaped, hbs, hq1, hq2, hsp]

theorem collapse_cons_skip (l : Option Char) (c : Char) (ds : List Char)
    (hc : c = ' ') (hl : l = some ' ') :
    collapse false false l (c :: ds) = collapse false false l ds := by
  subst hc
  subst hl
  simp [collapse, singleQuote]

theorem collapse_length : ∀ (ds : List Char) (i e : Bool) (l : Option Char),
    (collapse i e l ds).length ≤ ds.length := by
  intro ds
  induction ds with
  | nil => intro i e l; simp [collapse]
  | cons c cs ih =>
    intro i e l
    unfold collapse
    split
    · simp only [List.length_cons]; exact Nat.succ_le_succ (ih _ _ _)
    · split
      · simp only [List.length_cons]; exact Nat.succ_le_succ (ih _ _ _)
      · split
        · simp only [List.length_cons]; exact Nat.succ_le_succ (ih _ _ _)
        · split
          · simp only [List.length_cons]; exact Nat.succ_le_succ (ih _ _ _)
          · split
            · exact Nat.le_trans (ih _ _ _) (Nat.le_succ _)
            · simp only [List.length_cons]; exact Nat.succ_le_succ (ih _ _ _)

theorem collapse_subset : ∀ (ds : List Char) (i e : Bool) (l : Option Char) (x : Char),
    x ∈ collapse i e l ds → x ∈ ds := by
  intro ds
  induction ds with
  | nil => intro i e l x hx; exact absurd hx (by simp [collapse])
  | cons c cs ih =>
    intro i e l x hx
    unfold collapse at hx
    have hdone : x ∈ c :: collapse (nextInString i e c) (nextEscaped e c) (some c) cs →
        x ∈ c :: cs := by
      intro hx2
      rcases List.mem_cons.mp hx2 with h | h
      · simp [h]
      · exact List.mem_cons_of_mem _ (ih _ _ _ _ h)
    split at hx
    · rcases List.mem_cons.mp hx with h | h
      · simp [h]
      · exact List.mem_cons_of_mem _ (ih _ _ _ _ h)
    · split at hx
      · rcases List.mem_cons.mp hx with h | h
        · simp [h]
        · exact List.mem_cons_of_mem _ (ih _ _ _ _ h)
      · split at hx
        · rcases List.mem_cons.mp hx with h | h
          · simp [h]
          · exact List.mem_cons_of_mem _ (ih _ _ _ _ h)
        · split at hx
          · rcases List.mem_cons.mp hx with h | h
            · simp [h]
            · exact List.mem_cons_of_mem _ (ih _ _ _ _ h)
          · split at hx
            · exact List.mem_cons_of_mem _ (ih _ _ _ _ hx)
            · rcases List.mem_cons.mp hx with h | h
              · simp [h]
              · exact List.mem_cons_of_mem _ (ih _ _ _ _ h)

theorem collapse_idem : ∀ (ds : List Char) (i e : Bool) (l : Option Char),
    collapse i e l (collapse i e l ds) = collapse i e l ds := by
  intro ds
  induction ds with
  | nil => intro i e l; rfl
  | cons c cs ih =>
    intro i e l
    by_cases hskip : e = false ∧ i = false ∧ c = ' ' ∧ l = some ' '
    · obtain ⟨he, hi, hc, hl⟩ := hskip
      subst he
      subst hi
      rw [collapse_cons_skip l c cs hc hl, ih]
    · rw [collapse_cons_push i e l c cs hskip, collapse_cons_push i e l c _ hskip, ih]

theorem collapse_dropWhile : ∀ (ds : List Char) (l : Option Char),
    collapse false false l ds = ds →
    collapse false false none (ds.dropWhile jsWhitespace) = ds.dropWhile jsWhitespace := by
  intro ds
  induction ds with
  | nil => intro l _; rfl
  | cons c cs ih =>
    intro l h
    by_cases hskip : (false : Bool) = false ∧ (false : Bool) = false ∧ c = ' ' ∧ l = some ' '
    · obtain ⟨_, _, hc, hl⟩ := hskip
      rw [collapse_cons_skip l c cs hc hl] at h
      have hlen := collapse_length cs false false l
      rw [h] at hlen
      simp only [List.length_cons] at hlen
      omega
    · have h2 := h
      rw [collapse_cons_push false false l c cs hskip] at h2
      injection h2 with _ h3
      by_cases hws : jsWhitespace c = true
      · rw [List.dropWhile_cons, if_pos hws]
        obtain ⟨hb, hq1, hq2⟩ := ws_not_special c hws
        have hin : nextInString false false c = false := by simp [nextInString, hq1, hq2]
        have hes : nextEscaped false c = false := by simp [nextEscaped, hb]
        rw [hin, hes] at h3
        exact ih (some c) h3
      · rw [List.dropWhile_cons, if_neg hws]
        have hskip2 : ¬((false : Bool) = false ∧ (false : Bool) = false ∧ c = ' ' ∧
            (none : Option Char) = some ' ') := by simp
        rw [collapse_cons_push false false none c cs hskip2]
        rw [h3]

theorem collapse_dropTrailing : ∀ (ds : List Char) (i e : Bool) (l : Option Char),
    collapse i e l ds = ds →
    collapse i e l (dropTrailingWs ds) = dropTrailingWs ds := by
  intro ds
  induction ds with
  | nil => intro i e l _; rfl
  | cons c cs ih =>
    intro i e l h
    by_cases hskip : e = false ∧ i = false ∧ c = ' ' ∧ l = some ' '
    · obtain ⟨he, hi, hc, hl⟩ := hskip
      subst he
      subst hi
      rw [collapse_cons_skip l c cs hc hl] at h
      have hlen := collapse_length cs false false l
      rw [h] at hlen
      simp only [List.length_cons] at hlen
      omega
    · have h2 := h
      rw [collapse_cons_push i e l c cs hskip] at h2
      injection h2 with _ h3
      cases hr : dropTrailingWs cs with
      | nil =>
        by_cases hws : jsWhitespace c = true
        · rw [show dropTrailingWs (c :: cs) = [] by
            simp only [dropTrailingWs]
            rw [hr, if_pos hws]]
          rfl
        · rw [show dropTrailingWs (c :: cs) = [c] by
            simp only [dropTrailingWs]
            rw [hr, if_neg hws]]
          rw [collapse_cons_push i e l c [] hskip]
          rfl
      | cons x xs =>
        rw [show dropTrailingWs (c :: cs) = c :: x :: xs by
          simp only [dropTrailingWs]
          rw [hr]]
        rw [collapse_cons_push i e l c (x :: xs) hskip]
        have h4 := ih (nextInString i e c) (nextEscaped e c) (some c) h3
        rw [hr] at h4
        rw [h4]

theorem dropTrailingWs_subset : ∀ (ds : List Char) (x : Char),
    x ∈ dropTrailingWs ds → x ∈ ds := by
  intro ds
  induction ds with
  | nil => intro x hx; exact absurd hx (by simp [dropTrailingWs])
  | cons c cs ih =>
    intro x hx
    simp only [dropTrailingWs] at hx
    cases hr : dropTrailingWs cs with
    | nil =>
      rw [hr] at hx
      by_cases hws : jsWhitespace c = true
      · rw [if_pos hws] at hx
        exact absurd hx (by simp)
      · rw [if_neg hws] at hx
        rcases List.mem_cons.mp hx with h | h
        · simp [h]
        · exact absurd h (by simp)
    | cons y ys =>
      rw [hr] at hx
      rcases List.mem_cons.mp hx with h | h
      · simp [h]
      · exact List.mem_cons_of_mem _ (ih x (by rw [hr]; exact h))

theorem dropWhileWs_idem (ds : List Char) :
    (ds.dropWhile jsWhitespace).dropWhile jsWhitespace = ds.dropWhile jsWhitespace := by
  induction ds with
  | nil => rfl
  | cons c cs ih =>
    rw [List.dropWhile_cons]
    by_cases hws : jsWhitespace c = true
    · rw [if_pos hws]
      exact ih
    · rw [if_neg hws, List.dropWhile_cons, if_neg hws]

theorem dropTrailingWs_idem : ∀ (ds : List Char),
    dropTrailingWs (dropTrailingWs ds) = dropTrailingWs ds := by
  intro ds
  induction ds with
  | nil => rfl
  | cons c cs ih =>
    cases hr : dropTrailingWs cs with
    | nil =>
      by_cases hws : jsWhitespace c = true
      · rw [show dropTrailingWs (c :: cs) = [] by
          simp only [dropTrailingWs]
          rw [hr, if_pos hws]]
        rfl
      · rw [show dropTrailingWs (c :: cs) = [c] by
          simp only [dropTrailingWs]
          rw [hr, if_neg hws]]
        simp only [dropTrailingWs]
        rw [if_neg hws]
    | cons x xs =>
      rw [show dropTrailingWs (c :: cs) = c :: x :: xs by
        simp only [dropTrailingWs]
        rw [hr]]
      rw [hr] at ih
      rw [dropTrailingWs]
      rw [ih]

theorem dropWhileWs_length_le : ∀ (l : List Char),
    (l.dropWhile jsWhitespace).length ≤ l.length := by
  intro l
  induction l with
  | nil => simp
  | cons c cs ih =>
    rw [List.dropWhile_cons]
    by_cases hp : jsWhitespace c = true
    · rw [if_pos hp]
      exact Nat.le_trans ih (Nat.le_succ _)
    · rw [if_neg hp]

theorem dropWhile_dropTrailing (ds : List Char) (h : ds.dropWhile jsWhitespace = ds) :
    (dropTrailingWs ds).dropWhile jsWhitespace = dropTrailingWs ds := by
  cases ds with
  | nil => rfl
  | cons c cs =>
    have hws : jsWhitespace c = false := by
      by_cases hw : jsWhitespace c = true
      · rw [List.dropWhile_cons, if_pos hw] at h
        have hthis := dropWhileWs_length_le cs
        rw [h] at hthis
        simp only [List.length_cons] at hthis
        omega
      · simpa using hw
    cases hr : dropTrailingWs cs with
    | nil =>
      rw [show dropTrailingWs (c :: cs) = if jsWhitespace c = true then [] else [c] by
        simp only [dropTrailingWs]
        rw [hr]]
      rw [hws]
      simp only [Bool.false_eq_true, if_false]
      rw [List.dropWhile_cons, if_neg (by simp [hws])]
    | cons x xs =>
      rw [show dropTrailingWs (c :: cs) = c :: x :: xs by
        simp only [dropTrailingWs]
        rw [hr]]
      rw [List.dropWhile_cons, if_neg (by simp [hws])]

theorem ppRRgo_id : ∀ (ds : List Char), (∀ c ∈ ds, ¬ c = ';' ∧ ¬ c = ',') →
    ppRRgo .norm ds = ds := by
  intro ds
  induction ds with
  | nil => intro _; rfl
  | cons c cs ih =>
    intro h
    obtain ⟨h1, h2⟩ := h c (by simp)
    have hcond : (c = ';' || c = ',') = false := by simp [h1, h2]
    simp only [ppRRgo, hcond, Bool.false_eq_true, if_false]
    rw [ih fun x hx => h x (by simp [hx])]

theorem nextInString_quote (i : Bool) (c : Char) (h : c = '"' ∨ c = singleQuote) :
    nextInString i false c = !i := by
  simp [nextInString, h]

theorem nextInString_other (i e : Bool) (c : Char) (h1 : ¬ c = '"') (h2 : ¬ c = singleQuote) :
    nextInString i e c = i := by
  simp [nextInString, h1, h2]

theorem nextInString_escaped (i : Bool) (c : Char) : nextInString i true c = i := by
  simp [nextInString]

theorem nextEscaped_backslash : nextEscaped false '\\' = true := by decide

theorem nextEscaped_other (c : Char) (h : ¬ c = '\\') : nextEscaped false c = false := by
  simp [nextEscaped, h]

theorem nextEscaped_escaped (c : Char) : nextEscaped true c = false := by
  simp [nextEscaped]

theorem dropWhileWs_subset : ∀ (l : List Char) (x : Char),
    x ∈ l.dropWhile jsWhitespace → x ∈ l := by
  intro l
  induction l with
  | nil => intro x hx; simp at hx
  | cons c cs ih =>
    intro x hx
    rw [List.dropWhile_cons] at hx
    by_cases hp : jsWhitespace c = true
    · rw [if_pos hp] at hx
      exact List.mem_cons_of_mem _ (ih x hx)
    · rw [if_neg hp] at hx
      exact hx

theorem ppFold_collapse : ∀ (ds : List Char) (i e : Bool) (ind : Int) (l : Option Char),
    (∀ c ∈ ds, structuralChar c = false) →
    ppFold ⟨i, e, ind, Option.map (fun c2 => [c2]) l⟩ ds = some (collapse i e l ds) := by
  intro ds
  induction ds with
  | nil => intro i e ind l _; rfl
  | cons c cs ih =>
    intro i e ind l hall
    have hc := hall c (by simp)
    obtain ⟨hb1, hb2, hb3, hb4, hb5, hb6⟩ := structural_ne c hc
    have hcs : ∀ x ∈ cs, structuralChar x = false := fun x hx => hall x (by simp [hx])
    rw [show ppFold ⟨i, e, ind, Option.map (fun c2 => [c2]) l⟩ (c :: cs) =
        (ppStep ⟨i, e, ind, Option.map (fun c2 => [c2]) l⟩ c >>= fun r =>
          ppFold r.2 cs >>= fun rest => some (r.1 ++ rest)) from rfl]
    cases e with
    | true =>
      have hstep : ppStep ⟨i, true, ind, Option.map (fun c2 => [c2]) l⟩ c =
          some ([c], ⟨i, false, ind, Option.map (fun c2 => [c2]) (some c)⟩) := by
        simp [ppStep]
      rw [hstep, optionBindSome]
      rw [ih i false ind (some c) hcs, optionBindSome]
      rw [collapse_cons_push i true l c cs (by simp), nextInString_escaped,
        nextEscaped_escaped]
      rfl
    | false =>
      by_cases hbs : c = '\\'
      · have hstep : ppStep ⟨i, false, ind, Option.map (fun c2 => [c2]) l⟩ c =
            some ([c], ⟨i, true, ind, Option.map (fun c2 => [c2]) (some c)⟩) := by
          simp [ppStep, hbs]
        rw [hstep, optionBindSome]
        rw [ih i true ind (some c) hcs, optionBindSome]
        have hq1 : ¬ c = '"' := by rw [hbs]; decide
        have hq2 : ¬ c = singleQuote := by rw [hbs]; decide
        rw [collapse_cons_push i false l c cs (fun hh => by
          rw [hh.2.2.1] at hbs
          exact absurd hbs (by decide)),
          nextInString_other i false c hq1 hq2, hbs, nextEscaped_backslash]
        rfl
      · by_cases hq : c = '"' ∨ c = singleQuote
        · have hstep : ppStep ⟨i, false, ind, Option.map (fun c2 => [c2]) l⟩ c =
              some ([c], ⟨!i, false, ind, Option.map (fun c2 => [c2]) (some c)⟩) := by
            rcases hq with hq | hq <;>
              simp [ppStep, hq, show ¬ singleQuote = '\\' from by decide]
          rw [hstep, optionBindSome]
          rw [ih (!i) false ind (some c) hcs, optionBindSome]
          rw [collapse_cons_push i false l c cs (fun hh => by
            rcases hq with hq | hq <;> rw [hh.2.2.1] at hq <;> exact absurd hq (by decide)),
            nextInString_quote i c hq, nextEscaped_other c hbs]
          rfl
        · have hq1 : ¬ c = '"' := fun hh => hq (Or.inl hh)
          have hq2 : ¬ c = singleQuote := fun hh => hq (Or.inr hh)
          cases i with
          | true =>
            have hstep : ppStep ⟨true, false, ind, Option.map (fun c2 => [c2]) l⟩ c =
                some ([c], ⟨true, false, ind, Option.map (fun c2 => [c2]) (some c)⟩) := by
              simp [ppStep, hbs, hq1, hq2]
            rw [hstep, optionBindSome]
            rw [ih true false ind (some c) hcs, optionBindSome]
            rw [collapse_cons_push true false l c cs (by simp),
              nextInString_other true false c hq1 hq2, nextEscaped_other c hbs]
            rfl
          | false =>
            by_cases hsp : c = ' ' ∧ l = some ' '
            · obtain ⟨hc1, hl1⟩ := hsp
              have hstep : ppStep ⟨false, false, ind, Option.map (fun c2 => [c2]) l⟩ c =
                  some ([], ⟨false, false, ind, Option.map (fun c2 => [c2]) l⟩) := by
                subst hc1
                rw [hl1]
                simp [ppStep, hb1, hb2, hb3, hb4, hb5, hb6, hbs, hq1, hq2]
              rw [hstep, optionBindSome]
              rw [ih false false ind l hcs, optionBindSome]
              rw [collapse_cons_skip l c cs hc1 hl1]
              rfl
            · have hstep : ppStep ⟨false, false, ind, Option.map (fun c2 => [c2]) l⟩ c =
                  some ([c], ⟨false, false, ind, Option.map (fun c2 => [c2]) (some c)⟩) := by
                by_cases hc1 : c = ' '
                · have hl1 : ¬ l = some ' ' := fun hh => hsp ⟨hc1, hh⟩
                  cases l with
                  | none => simp [ppStep, hb1, hb2, hb3, hb4, hb5, hb6, hbs, hq1, hq2]
                  | some a =>
                    have ha : ¬ a = ' ' := fun hh => hl1 (by rw [hh])
                    simp [ppStep, hb1, hb2, hb3, hb4, hb5, hb6, hbs, hq1, hq2, ha]
                · simp [ppStep, hb1, hb2, hb3, hb4, hb5, hb6, hbs, hq1, hq2, hc1]
              rw [hstep, optionBindSome]
              rw [ih false false ind (some c) hcs, optionBindSome]
              rw [collapse_cons_push false false l c cs (fun hh => hsp ⟨hh.2.2.1, hh.2.2.2⟩),
                nextInString_other false false c hq1 hq2, nextEscaped_other c hbs]
              rfl

/-- The pretty-printer run on a structural-free string: the loop emits the
collapsed characters, the blank-line replace is the identity, and the result
is the trimmed collapse. -/
theorem prettyPrintType_structural_free (s : String)
    (h : ∀ c ∈ s.toList, structuralChar c = false) :
    prettyPrintType s =
      some (trimCore (collapse false false none s.toList)).asString := by
  have h1 := ppFold_collapse s.toList false false 0 none h
  have hsemi : ∀ c ∈ collapse false false none s.toList, ¬ c = ';' ∧ ¬ c = ',' := by
    intro c hcu
    have hmem := collapse_subset s.toList false false none c hcu
    exact (structural_ne c (h c hmem)).2.2.2.2
  rw [prettyPrintType]
  rw [show (ppInit : PPState) =
      ⟨false, false, 0, Option.map (fun c2 => [c2]) none⟩ from rfl]
  rw [h1]
  simp only [Option.map_some']
  rw [ppRRgo_id _ hsemi]

/-- Claim C2 (amended): on an input without braces, brackets, semicolons or
commas, prettyPrintType succeeds and its output is a fixed point: running the
printer again returns the output unchanged. -/
theorem claim_C2_amended (s : String)
    (h : ∀ c ∈ s.toList, structuralChar c = false) :
    ∃ t : String, prettyPrintType s = some t ∧ prettyPrintType t = some t := by
  refine ⟨(trimCore (collapse false false none s.toList)).asString,
    prettyPrintType_structural_free s h, ?_⟩
  set u := collapse false false none s.toList with hu
  set v := trimCore u with hv
  have hvsub : ∀ c ∈ v, c ∈ s.toList := by
    intro c hcv
    have h2 : c ∈ u.dropWhile jsWhitespace := dropTrailingWs_subset _ c hcv
    have h3 : c ∈ u := dropWhileWs_subset u c h2
    exact collapse_subset s.toList false false none c h3
  have hvstruct : ∀ c ∈ v.asString.toList, structuralChar c = false := by
    rw [List.toList_asString]
    intro c hcv
    exact h c (hvsub c hcv)
  have hcu : collapse false false none u = u := collapse_idem s.toList false false none
  have hdw : collapse false false none (u.dropWhile jsWhitespace) =
      u.dropWhile jsWhitespace := collapse_dropWhile u none hcu
  have hfix : collapse false false none v = v := by
    rw [hv, trimCore]
    exact collapse_dropTrailing (u.dropWhile jsWhitespace) false false none hdw
  have htrim : trimCore v = v := by
    rw [hv, trimCore, trimCore]
    rw [dropWhile_dropTrailing (u.dropWhile jsWhitespace) (dropWhileWs_idem u)]
    rw [dropTrailingWs_idem]
  rw [prettyPrintType_structural_free v.asString hvstruct]
  rw [List.toList_asString, hfix, htrim]

/-- Witness for the amended C2 at the structural-free input "A | B". -/
theorem claim_C2_amended_witness :
    (∀ c ∈ ("A | B" : String).toList, structuralChar c = false) ∧
      ∃ t : String, prettyPrintType "A | B" = some t ∧
        prettyPrintType t = some t :=
  ⟨by decide, claim_C2_amended "A | B" (by decide)⟩

end TreatyDocs
